import Mathlib

/-! scnet: the epoll connection dispatcher of epoll-echo.

A shallow embedding of `src/include/scnet.hpp` and `src/src/scnet.cpp`.

The C++ code is stateful and talks to three things outside itself: the kernel
(sockets, the epoll instance), the free store (`new` / `delete` of
`client_state`) and the Event Sink (`device_callbacks`).  The embedding makes
all three explicit:

* a `world` holds the members of the `device` object, the state of the Sink
  object, the free store (which `client_state` addresses are live, and their
  contents), the interest list of the epoll instance and a trace of every
  system call and callback made so far;
* what the kernel answers to `read`, `accept`, `send`, ... is an input of the
  embedded function (a script of results);
* the Sink is a record of state-passing functions over a state of any type; from
  inside `on_read` it may call back into the device on the connection it was
  handed (`disconnect_client`, `set_client_userdata`, `write_buffer`), while
  `on_accept`, `on_disconnect`, `on_startup` and `on_shutdown` are taken not to
  call back;
* undefined behaviour (use of a destroyed record, an iterator outside the
  vector) and `abort()` end a run with an error that names the cause;
* a script that runs out while the code is still looping ends the run with
  `script_exhausted`: the code is waiting for a system call that has no answer.

Only one thread of execution is embedded.
-/

namespace scnet

/-! ## Data model -/

/-- One octet (`uint8_t`, or a `char` of the scratch buffer). -/
abbrev byte := Fin 256

/-- The address of a heap-allocated `client_state`; `0` is `nullptr`. -/
abbrev ptr := Nat

/-- The null pointer. -/
def nullptr : ptr := 0

/-- Width of `uint64_t`. -/
def UINT64_MOD : Nat := 2 ^ 64

/-- The errno value `EAGAIN` (Linux). -/
def EAGAIN : Int := 11

/-- The errno value `EWOULDBLOCK` (Linux: the same value as `EAGAIN`). -/
def EWOULDBLOCK : Int := 11

/-- The `struct address` of scnet.hpp: `uint8_t ip[16]`, `uint16_t port`. -/
structure address where
  ip : List byte
  port : Nat
  deriving DecidableEq

/-- The value of `address address = {}`: sixteen zero octets, port 0. -/
def address.zero : address := { ip := List.replicate 16 0, port := 0 }

/-- The two fields of `struct sockaddr_in` the code reads, as they lie in memory:
`sin_port` is two octets in network byte order (most significant first) and
`sin_addr.s_addr` is four octets. -/
structure sockaddr_in where
  sin_port : byte × byte
  s_addr : byte × byte × byte × byte
  deriving DecidableEq

/-- The library function `ntohs`: the host value of a 16-bit quantity stored in
network byte order. -/
def ntohs (n : byte × byte) : Nat := n.1.val * 256 + n.2.val

/-- The function `sockaddr_in_to_address`: the port through `ntohs`, and a `memcpy` of the four
octets of `s_addr` over `ip[0..3]`; the other twelve octets of `out_addr.ip` are
left as they were. -/
def sockaddr_in_to_address (in_addr : sockaddr_in) (out_addr : address) : address :=
  { port := ntohs in_addr.sin_port,
    ip := [in_addr.s_addr.1, in_addr.s_addr.2.1, in_addr.s_addr.2.2.1, in_addr.s_addr.2.2.2]
            ++ out_addr.ip.drop 4 }

/-- The `struct client_state` of scnet.cpp.  `userdata` is the `void*` as a number; the two counters
are `uint64_t`. -/
structure client_state where
  address : address
  userdata : Nat
  fd : Int
  read_buffer : List byte
  bytes_read : Nat
  bytes_written : Nat
  deriving DecidableEq

/-- The free store: the live `client_state` objects by address. -/
abbrev heap := ptr → Option client_state

/-- Which `perror` call was made. -/
inductive perror_site
  | accept
  | read
  | epoll_ctl
  | epoll_wait
  deriving DecidableEq

/-- Everything the code does that is visible outside it, in the order it does it.
A callback event records the record as the Sink can see it at that moment
(`none`: the pointer it is handed refers to no live record). -/
inductive event
  | on_startup
  | on_shutdown
  | on_accept (client : ptr) (seen : Option client_state)
  | on_disconnect (client : ptr) (seen : Option client_state)
  | on_read (client : ptr) (buffer : List byte) (size : Nat) (ret : Int)
  | epoll_ctl_add (fd : Int) (data : ptr)
  | epoll_ctl_del (fd : Int)
  | shutdown (fd : Int)
  | close (fd : Int)
  | send (fd : Int) (buffer : List byte) (size : Nat)
  | set_fd_blocking (fd : Int) (blocking : Bool)
  | perror (site : perror_site)
  | new_client (client : ptr)
  | delete_client (client : ptr)
  | spawn_thread (id : Nat)
  deriving DecidableEq

/-- A device operation the Sink invokes from inside `on_read`, on the connection it
was handed.  `send_result` is what the kernel answers to the `send` of that
`write_buffer` call. -/
inductive api_call
  | disconnect_client
  | set_client_userdata (userdata : Nat)
  | write_buffer (buffer : List byte) (size : Nat) (send_result : Int)
  deriving DecidableEq

/-- What one `on_read` call does: the device operations it invokes, the value it
returns, and the Sink's state afterwards. -/
structure read_reply (σ : Type) where
  calls : List api_call
  ret : Int
  sink : σ

/-- The `class device_callbacks`, the Event Sink: five virtual functions over the
state `σ` of the Sink object (the `device&` argument is the handle through which
`on_read` makes its `api_call`s). -/
structure device_callbacks (σ : Type) where
  on_startup : σ → Bool × σ
  on_shutdown : σ → σ
  on_accept : σ → ptr → Bool × σ
  on_disconnect : σ → ptr → Bool × σ
  on_read : σ → ptr → List byte → Nat → read_reply σ

/-- The data members of `class device`: `epoll_fd`, `listener`, `callbacks` (a
`unique_ptr`, possibly empty) and the number of worker threads. -/
structure device (σ : Type) where
  epoll_fd : Int
  listener : ptr
  callbacks : Option (device_callbacks σ)
  threads : Nat

/-- The device together with everything it acts on. -/
structure world (σ : Type) where
  dev : device σ
  sink : σ
  heap : heap
  interest : List (Int × ptr)
  trace : List event

/-- Why a run ended before the embedded function returned. -/
inductive halt
  | dangling (client : ptr)
  | out_of_range (size : Nat) (count : Int)
  | abort
  | join_blocks
  | script_exhausted
  deriving DecidableEq

/-- The result of running a piece of the code: its value, or the cause of the halt
and the world in which it happened. -/
abbrev run (σ : Type) (α : Type) := Except (halt × world σ) α

/-- Append events to the trace. -/
def world.log {σ : Type} (w : world σ) (es : List event) : world σ :=
  { w with trace := w.trace ++ es }

/-- Overwrite the record at a live address. -/
def world.store {σ : Type} (w : world σ) (client : ptr) (st : client_state) : world σ :=
  { w with heap := Function.update w.heap client (some st) }

/-! ## The device -/

/-- The function `set_fd_blocking`: nothing for a negative descriptor, else the two
`fcntl` calls that clear or set `O_NONBLOCK` (their results never reach the
device). -/
def set_fd_blocking {σ : Type} (w : world σ) (fd : Int) (blocking : Bool) : world σ :=
  if fd < 0 then w else w.log [event.set_fd_blocking fd blocking]

/-- The function `create_socket`: the descriptor `fd` that `socket` returned is made
non-blocking and returned. -/
def create_socket {σ : Type} (w : world σ) (fd : Int) : world σ × Int :=
  (set_fd_blocking w fd false, fd)

/-- The member `allocate_client`: `new client_state` at the address the allocator returns.
The default member initialisers zero the address and the vector is empty; the
scalar members are not initialised and hold whatever `uninit` holds. -/
def allocate_client {σ : Type} (w : world σ) (at_addr : ptr) (uninit : client_state) : world σ :=
  (w.store at_addr { uninit with address := address.zero, read_buffer := [] }).log
    [event.new_client at_addr]

/-- The member `deallocate_client`: `delete client`.  Deleting `nullptr` does nothing;
deleting an address that holds no live record is a double free. -/
def deallocate_client {σ : Type} (w : world σ) (client : ptr) : run σ (world σ) :=
  if client = nullptr then .ok w
  else
    match w.heap client with
    | none => .error (halt.dangling client, w)
    | some _ =>
      .ok ({ w with heap := Function.update w.heap client none }.log [event.delete_client client])

/-- The member `device::disconnect_client`: nothing for `nullptr`; else the Sink's
`on_disconnect` (if there is a Sink), then `epoll_ctl(EPOLL_CTL_DEL)`, `shutdown` and
`close` on `client->fd`, then `deallocate_client`. -/
def disconnect_client {σ : Type} (w : world σ) (client : ptr) : run σ (world σ) :=
  if client = nullptr then .ok w
  else
    let w1 : world σ :=
      match w.dev.callbacks with
      | some cb =>
        { (w.log [event.on_disconnect client (w.heap client)]) with
            sink := (cb.on_disconnect w.sink client).2 }
      | none => w
    match w1.heap client with
    | none => .error (halt.dangling client, w1)
    | some st =>
      let w2 : world σ :=
        { (w1.log [event.epoll_ctl_del st.fd, event.shutdown st.fd, event.close st.fd]) with
            interest := w1.interest.filter (fun r => r.1 ≠ st.fd) }
      deallocate_client w2 client

/-- The member `device::set_client_userdata`. -/
def set_client_userdata {σ : Type} (w : world σ) (client : ptr) (userdata : Nat) :
    run σ (world σ) :=
  match w.heap client with
  | none => .error (halt.dangling client, w)
  | some st => .ok (w.store client { st with userdata := userdata })

/-- The member `device::get_client_userdata`. -/
def get_client_userdata {σ : Type} (w : world σ) (client : ptr) : run σ Nat :=
  match w.heap client with
  | none => .error (halt.dangling client, w)
  | some st => .ok st.userdata

/-- The member `device::get_client_address`. -/
def get_client_address {σ : Type} (w : world σ) (client : ptr) : run σ address :=
  match w.heap client with
  | none => .error (halt.dangling client, w)
  | some st => .ok st.address

/-- The member `device::write_buffer`: one `send` on `client->fd`; a positive result
is added to the `uint64_t` counter `bytes_written`; the result is returned.
`send_result` is what `send` returns for this call. -/
def write_buffer {σ : Type} (w : world σ) (client : ptr) (buffer : List byte) (size : Nat)
    (send_result : Int) : run σ (world σ × Int) :=
  match w.heap client with
  | none => .error (halt.dangling client, w)
  | some st =>
    let w1 := w.log [event.send st.fd buffer size]
    if send_result > 0 then
      .ok (w1.store client
            { st with bytes_written := (st.bytes_written + send_result.toNat) % UINT64_MOD },
           send_result)
    else
      .ok (w1, send_result)

/-- One device operation invoked by the Sink on the connection `client`. -/
def run_call {σ : Type} (w : world σ) (client : ptr) : api_call → run σ (world σ)
  | api_call.disconnect_client => disconnect_client w client
  | api_call.set_client_userdata u => set_client_userdata w client u
  | api_call.write_buffer b n r =>
    match write_buffer w client b n r with
    | .ok (w', _) => .ok w'
    | .error e => .error e

/-- The device operations of one callback, in order. -/
def run_calls {σ : Type} (w : world σ) (client : ptr) : List api_call → run σ (world σ)
  | [] => .ok w
  | c :: cs =>
    match run_call w client c with
    | .ok w' => run_calls w' client cs
    | .error e => .error e

/-- What one `read(client->fd, buffer.data(), buffer.size())` returns: the count,
`errno`, and the octets it stored at the front of the 512-octet scratch buffer
(`count` of them when the count is positive). -/
structure read_result where
  count : Int
  errno : Int
  data : List byte
  deriving DecidableEq

/-- A read that delivers the octets of `c`. -/
def read_result.chunk (c : List byte) : read_result :=
  { count := c.length, errno := 0, data := c }

/-- A read that fails with `EAGAIN`. -/
def read_result.would_block : read_result := { count := -1, errno := EAGAIN, data := [] }

/-- A read that fails with another errno. -/
def read_result.failed (errno : Int) : read_result := { count := -1, errno := errno, data := [] }

/-- A read of zero octets: the peer closed. -/
def read_result.eof : read_result := { count := 0, errno := 0, data := [] }

/-- Lines 244-259 of `handle_read`: what is done with a read that is neither `-1`
nor `0`.  `st` is the record `client` points at. -/
def deliver {σ : Type} (w : world σ) (client : ptr) (st : client_state) (r : read_result) :
    run σ (world σ) :=
  let st1 : client_state :=
    { st with bytes_read := (((st.bytes_read : Int) + r.count) % (UINT64_MOD : Int)).toNat }
  let w1 := w.store client st1
  match w1.dev.callbacks with
  | none => .ok w1
  | some cb =>
    if r.count > 0 then
      let rb := st1.read_buffer ++ r.data.take r.count.toNat
      let w2 := w1.store client { st1 with read_buffer := rb }
      let reply := cb.on_read w2.sink client rb rb.length
      let w3 : world σ :=
        { (w2.log [event.on_read client rb rb.length reply.ret]) with sink := reply.sink }
      match run_calls w3 client reply.calls with
      | .error e => .error e
      | .ok w4 =>
        match w4.heap client with
        | none => .error (halt.dangling client, w4)
        | some st4 =>
          if 0 ≤ reply.ret ∧ reply.ret ≤ (st4.read_buffer.length : Int) then
            .ok (w4.store client
                  { st4 with read_buffer := st4.read_buffer.drop reply.ret.toNat })
          else
            .error (halt.out_of_range st4.read_buffer.length reply.ret, w4)
    else .ok w1

/-- The member `device::handle_read`.  The reads of the loop take their results from the
script; the unread rest of the script is returned. -/
def handle_read {σ : Type} (w : world σ) (client : ptr) :
    List read_result → run σ (world σ × List read_result)
  | [] => .error (halt.script_exhausted, w)
  | r :: rest =>
    match w.heap client with
    | none => .error (halt.dangling client, w)
    | some st =>
      if r.count = -1 then
        if r.errno ≠ EAGAIN then .ok (w.log [event.perror perror_site.read], rest)
        else .ok (w, rest)
      else if r.count = 0 then
        match disconnect_client w client with
        | .ok w' => .ok (w', rest)
        | .error e => .error e
      else
        match deliver w client st r with
        | .ok w' => handle_read w' client rest
        | .error e => .error e

/-- What one turn of the loop of `handle_accept` is answered: the result of
`accept` with its errno and the peer's socket address, the address `new` returns
for the record with the indeterminate contents of that storage, and the result
of the `epoll_ctl` that registers the socket. -/
structure accept_result where
  in_fd : Int
  errno : Int
  input_addr : sockaddr_in
  new_client : ptr
  uninit : client_state
  epoll_ctl : Int
  deriving DecidableEq

/-- The member `device::handle_accept`.  Each turn of the loop takes its results
from the script; the unused rest of the script is returned. -/
def handle_accept {σ : Type} (w : world σ) :
    List accept_result → run σ (world σ × List accept_result)
  | [] => .error (halt.script_exhausted, w)
  | a :: rest =>
    match w.heap w.dev.listener with
    | none => .error (halt.dangling w.dev.listener, w)
    | some _ =>
      if a.in_fd = -1 then
        if a.errno = EAGAIN ∨ a.errno = EWOULDBLOCK then .ok (w, rest)
        else .ok (w.log [event.perror perror_site.accept], rest)
      else
        let w1 := set_fd_blocking w a.in_fd false
        let addr := sockaddr_in_to_address a.input_addr address.zero
        let w2 := allocate_client w1 a.new_client a.uninit
        match w2.heap a.new_client with
        | none => .error (halt.dangling a.new_client, w2)
        | some st =>
          let w3 := w2.store a.new_client { st with address := addr, fd := a.in_fd }
          let w4 : world σ :=
            match w3.dev.callbacks with
            | some cb =>
              { (w3.log [event.on_accept a.new_client (w3.heap a.new_client)]) with
                  sink := (cb.on_accept w3.sink a.new_client).2 }
            | none => w3
          let w5 := w4.log [event.epoll_ctl_add a.in_fd a.new_client]
          if a.epoll_ctl = -1 then
            .error (halt.abort, w5.log [event.perror perror_site.epoll_ctl])
          else
            handle_accept { w5 with interest := w5.interest ++ [(a.in_fd, a.new_client)] } rest

/-- One ready event of an `epoll_wait` batch: its `data.ptr`, and what the system
calls of the handler it is routed to will be answered. -/
structure ready_event where
  data_ptr : ptr
  accepts : List accept_result
  reads : List read_result
  deriving DecidableEq

/-- The inner loop of `device::worker` over the events of one batch. -/
def worker_events {σ : Type} (w : world σ) : List ready_event → run σ (world σ)
  | [] => .ok w
  | ev :: evs =>
    if ev.data_ptr ≠ nullptr then
      match w.heap ev.data_ptr with
      | none => .error (halt.dangling ev.data_ptr, w)
      | some c =>
        match w.heap w.dev.listener with
        | none => .error (halt.dangling w.dev.listener, w)
        | some l =>
          if c.fd = l.fd then
            match handle_accept w ev.accepts with
            | .ok (w', _) => worker_events w' evs
            | .error e => .error e
          else
            match handle_read w ev.data_ptr ev.reads with
            | .ok (w', _) => worker_events w' evs
            | .error e => .error e
    else .ok w

/-- The capacity of the event array of `device::worker`. -/
def MAX_EVENTS : Nat := 64

/-- What one `epoll_wait` returns: the count and the events it stored in the array
(which holds `MAX_EVENTS` of them). -/
structure wait_result where
  num_events : Int
  events : List ready_event
  deriving DecidableEq

/-- The function `device::worker`, for as long as the script has results of `epoll_wait`; when
they run out the thread stays blocked in `epoll_wait`. -/
def worker {σ : Type} (w : world σ) : List wait_result → run σ (world σ)
  | [] => .ok w
  | r :: rs =>
    if r.num_events = -1 then worker (w.log [event.perror perror_site.epoll_wait]) rs
    else
      match worker_events w ((r.events.take MAX_EVENTS).take r.num_events.toNat) with
      | .ok w' => worker w' rs
      | .error e => .error e

/-- What the system calls of the constructor are answered. -/
structure ctor_result where
  epoll_create : Int
  new_client : ptr
  uninit : client_state
  socket : Int
  bind : Int
  listen : Int
  epoll_ctl : Int
  deriving DecidableEq

/-- The constructor `device::device`. -/
def device_ctor {σ : Type} (callbacks : Option (device_callbacks σ)) (sink : σ)
    (num_threads : Nat) (k : ctor_result) : run σ (world σ) :=
  let w0 : world σ :=
    { dev := { epoll_fd := k.epoll_create, listener := nullptr, callbacks := callbacks,
               threads := 0 },
      sink := sink, heap := fun _ => none, interest := [], trace := [] }
  let w1 := allocate_client w0 k.new_client k.uninit
  let w1 : world σ := { w1 with dev := { w1.dev with listener := k.new_client } }
  let made := create_socket w1 k.socket
  match made.1.heap made.1.dev.listener with
  | none => .error (halt.dangling made.1.dev.listener, made.1)
  | some st =>
    let w2 := made.1.store made.1.dev.listener { st with fd := made.2 }
    if k.bind ≠ 0 then .error (halt.abort, w2)
    else if k.listen ≠ 0 then .error (halt.abort, w2)
    else
      let w3 : world σ :=
        { (w2.log ((List.range num_threads).map event.spawn_thread)) with
            dev := { w2.dev with threads := num_threads } }
      let w4 := w3.log [event.epoll_ctl_add k.socket w3.dev.listener]
      if k.epoll_ctl = -1 then .error (halt.abort, w4.log [event.perror perror_site.epoll_ctl])
      else
        let w5 : world σ := { w4 with interest := w4.interest ++ [(k.socket, w4.dev.listener)] }
        match w5.dev.callbacks with
        | some cb => .ok { (w5.log [event.on_startup]) with sink := (cb.on_startup w5.sink).2 }
        | none => .ok w5

/-- The destructor `device::~device`.  The worker threads never leave their loop, so with at least
one of them the `join` does not return. -/
def device_dtor {σ : Type} (w : world σ) : run σ (world σ) :=
  let w1 : world σ :=
    match w.dev.callbacks with
    | some cb => { (w.log [event.on_shutdown]) with sink := cb.on_shutdown w.sink }
    | none => w
  match disconnect_client w1 w1.dev.listener with
  | .error e => .error e
  | .ok w2 =>
    if w2.dev.threads = 0 then .ok (w2.log [event.close w2.dev.epoll_fd])
    else .error (halt.join_blocks, w2)

/-! ## Sinks and worlds to run the code on -/

/-- A Sink that makes no device calls and answers its `on_read` calls from a list
of return values (0 once the list is used up). -/
def scripted_sink : device_callbacks (List Int) :=
  { on_startup := fun s => (true, s),
    on_shutdown := fun s => s,
    on_accept := fun s _ => (true, s),
    on_disconnect := fun s _ => (true, s),
    on_read := fun s _ _ _ =>
      match s with
      | [] => { calls := [], ret := 0, sink := [] }
      | n :: s' => { calls := [], ret := n, sink := s' } }

/-- A record with every member zero. -/
def blank : client_state :=
  { address := address.zero, userdata := 0, fd := 0, read_buffer := [], bytes_read := 0,
    bytes_written := 0 }

/-- A running device: the listener record at address 1 on socket 4, one accepted
connection at address 2 on socket 5, both registered with the epoll instance 3. -/
def two_record_world {σ : Type} (cb : Option (device_callbacks σ)) (s : σ) : world σ :=
  { dev := { epoll_fd := 3, listener := 1, callbacks := cb, threads := 0 },
    sink := s,
    heap := fun p => if p = 1 then some { blank with fd := 4 }
                     else if p = 2 then some { blank with fd := 5 } else none,
    interest := [(4, 1), (5, 2)],
    trace := [] }

/-- The octets of "ping". -/
def ping : List byte := [112, 105, 110, 103]

/-- A Sink that makes no device calls and consumes whole frames of `k` octets: its
`on_read` returns the largest multiple of `k` that is at most the size. -/
def frame_sink (k : Nat) : device_callbacks Unit :=
  { on_startup := fun s => (true, s),
    on_shutdown := fun s => s,
    on_accept := fun s _ => (true, s),
    on_disconnect := fun s _ => (true, s),
    on_read := fun s _ _ n => { calls := [], ret := ((n / k * k : Nat) : Int), sink := s } }

/-- A Sink that never consumes anything: its `on_read` returns 0. -/
def hold_sink : device_callbacks Unit :=
  { on_startup := fun s => (true, s),
    on_shutdown := fun s => s,
    on_accept := fun s _ => (true, s),
    on_disconnect := fun s _ => (true, s),
    on_read := fun s _ _ _ => { calls := [], ret := 0, sink := s } }

/-- A Sink that hangs up on its peer: its `on_read` calls
`device.disconnect_client(client)` and returns 0. -/
def hangup_sink : device_callbacks Unit :=
  { on_startup := fun s => (true, s),
    on_shutdown := fun s => s,
    on_accept := fun s _ => (true, s),
    on_disconnect := fun s _ => (true, s),
    on_read := fun s _ _ _ => { calls := [api_call.disconnect_client], ret := 0, sink := s } }

/-- The world of `two_record_world` without a Sink, in which the connection at
address 2 has written `2 ^ 64 - 1` octets so far. -/
def full_counter_world : world Unit :=
  { two_record_world none () with
    heap := fun p => if p = 1 then some { blank with fd := 4 }
                     else if p = 2 then some { blank with fd := 5, bytes_written := 2 ^ 64 - 1 }
                     else none }

/-- A Sink that refuses every client: its `on_accept` returns `false`. -/
def refusing_sink : device_callbacks Unit :=
  { on_startup := fun s => (true, s),
    on_shutdown := fun s => s,
    on_accept := fun s _ => (false, s),
    on_disconnect := fun s _ => (true, s),
    on_read := fun s _ buf _ => { calls := [], ret := buf.length, sink := s } }

/-- Storage that `new` hands out with all bits set. -/
def junk : client_state :=
  { address := address.zero, userdata := 2 ^ 64 - 1, fd := -1, read_buffer := [],
    bytes_read := 2 ^ 64 - 1, bytes_written := 2 ^ 64 - 1 }

/-- Two pending connections, from 127.0.0.1:8080 and 10.0.0.7:443, accepted on the
sockets 6 and 7 into records at the addresses 3 and 4. -/
def two_accepts : List accept_result :=
  [ { in_fd := 6, errno := 0, input_addr := { sin_port := (31, 144), s_addr := (127, 0, 0, 1) },
      new_client := 3, uninit := junk, epoll_ctl := 0 },
    { in_fd := 7, errno := 0, input_addr := { sin_port := (1, 187), s_addr := (10, 0, 0, 7) },
      new_client := 4, uninit := junk, epoll_ctl := 0 } ]

/-- An `accept` that finds no pending connection. -/
def accept_would_block : accept_result :=
  { in_fd := -1, errno := EAGAIN, input_addr := { sin_port := (0, 0), s_addr := (0, 0, 0, 0) },
    new_client := 0, uninit := blank, epoll_ctl := 0 }

/-- A ready event tagged with `p`: if it is routed to `handle_accept`, two
connections are pending; if it is routed to `handle_read`, the peer has closed. -/
def probe_event (p : ptr) : ready_event :=
  { data_ptr := p, accepts := two_accepts ++ [accept_would_block], reads := [read_result.eof] }

/-- System calls of a constructor run that succeeds: the epoll instance is 3, the
listener record is allocated at address 1 and the listening socket is 4. -/
def good_ctor : ctor_result :=
  { epoll_create := 3, new_client := 1, uninit := junk, socket := 4, bind := 0, listen := 0,
    epoll_ctl := 0 }

/-! ## Reading a trace -/

/-- The octets the Sink reported as consumed on the connection `client`: for each of
its `on_read` calls, in order, the first `ret` octets of the buffer of that call. -/
def consumed (client : ptr) : List event → List byte
  | [] => []
  | event.on_read c buffer _ ret :: es =>
    (if c = client then buffer.take ret.toNat else []) ++ consumed client es
  | _ :: es => consumed client es

/-- The `on_read` calls of a trace, in order. -/
def on_reads : List event → List event
  | [] => []
  | event.on_read c buffer size ret :: es => event.on_read c buffer size ret :: on_reads es
  | _ :: es => on_reads es

/-- The sizes given to the `on_read` calls of a trace, in order. -/
def read_sizes : List event → List Nat
  | [] => []
  | event.on_read _ _ size _ :: es => size :: read_sizes es
  | _ :: es => read_sizes es

/-- How many times the record at `client` was destroyed in a trace. -/
def destroyed (client : ptr) (es : List event) : Nat :=
  es.count (event.delete_client client)

/-- How many `on_disconnect` callbacks a trace has for `client`. -/
def disconnects (client : ptr) : List event → Nat
  | [] => 0
  | event.on_disconnect c _ :: es => (if c = client then 1 else 0) + disconnects client es
  | _ :: es => disconnects client es

/-- The buffer the record at `client` retains after the `on_read` calls of a trace:
what the last of them left unconsumed, or `rb` if there was none. -/
def retained (client : ptr) (rb : List byte) : List event → List byte
  | [] => rb
  | event.on_read c buffer _ ret :: es =>
    retained client (if c = client then buffer.drop ret.toNat else rb) es
  | _ :: es => retained client rb es

/-- Events that take a connection down: deregistration, shutdown and close of a
socket, the disconnect callback, destruction of a record. -/
def is_teardown : event → Bool
  | event.on_disconnect _ _ => true
  | event.epoll_ctl_del _ => true
  | event.shutdown _ => true
  | event.close _ => true
  | event.delete_client _ => true
  | _ => false

/-! ## Notions used to state and prove the properties -/

/-- The `send` events of the `write_buffer` calls among the device operations of one
callback, on the socket `fd`. -/
def sends_of (fd : Int) : List api_call → List event
  | [] => []
  | api_call.write_buffer b n _ :: cs => event.send fd b n :: sends_of fd cs
  | _ :: cs => sends_of fd cs

/-- Two states of one record that differ at most in `userdata` and `bytes_written`. -/
def same_conn (a b : client_state) : Prop :=
  a.address = b.address ∧ a.fd = b.fd ∧ a.read_buffer = b.read_buffer
    ∧ a.bytes_read = b.bytes_read

/-- A Sink whose `on_read`, given a buffer and its size, always returns a count
between 0 and that size and never calls `disconnect_client`. -/
def well_behaved {σ : Type} (cb : device_callbacks σ) : Prop :=
  ∀ (s : σ) (c : ptr) (buf : List byte),
    (0 ≤ (cb.on_read s c buf buf.length).ret
        ∧ (cb.on_read s c buf buf.length).ret ≤ (buf.length : Int))
      ∧ api_call.disconnect_client ∉ (cb.on_read s c buf buf.length).calls

/-- What a run of reads with positive counts comes to, computed without the device:
the events it adds to the trace, the buffer the record retains, and the state of
the Sink.  `rb` is the buffer and `s` the Sink's state before the run. -/
def drain {σ : Type} (cbs : Option (device_callbacks σ)) (client : ptr) (fd : Int) :
    σ → List byte → List read_result → List event × List byte × σ
  | s, rb, [] => ([], rb, s)
  | s, rb, r :: rs =>
    match cbs with
    | none => drain cbs client fd s rb rs
    | some cb =>
      let buf := rb ++ r.data.take r.count.toNat
      let reply := cb.on_read s client buf buf.length
      let t := drain cbs client fd reply.sink (buf.drop reply.ret.toNat) rs
      (event.on_read client buf buf.length reply.ret :: (sends_of fd reply.calls ++ t.1),
       t.2.1, t.2.2)

/-- The octets a list of reads delivers, in order. -/
def delivered (rs : List read_result) : List byte :=
  (rs.map (fun r => r.data.take r.count.toNat)).flatten

/-- A Sink that consumes nothing: its `on_read`, given a buffer and its size, always
returns 0 (and never calls `disconnect_client`). -/
def consumes_nothing {σ : Type} (cb : device_callbacks σ) : Prop :=
  ∀ (s : σ) (c : ptr) (buf : List byte),
    (cb.on_read s c buf buf.length).ret = 0
      ∧ api_call.disconnect_client ∉ (cb.on_read s c buf buf.length).calls

/-- The events with which `handle_read` ends on the read `stop` (count `0` or `-1`),
for the record `st` at `client`: the steps of `disconnect_client` after a read of
zero octets, a `perror` after a failure other than `EAGAIN`, nothing after
`EAGAIN`. -/
def ending (has_sink : Bool) (client : ptr) (st : client_state) (stop : read_result) :
    List event :=
  if stop.count = 0 then
    (if has_sink then [event.on_disconnect client (some st)] else [])
      ++ [event.epoll_ctl_del st.fd, event.shutdown st.fd, event.close st.fd,
          event.delete_client client]
  else if stop.errno ≠ EAGAIN then [event.perror perror_site.read]
  else []

/-- The record `handle_accept` is to make for one accepted connection: the accepted
socket; the peer's port read from network byte order and its four IPv4 octets in
`ip[0..3]`, with `ip[4..15]` zero; an empty `read_buffer`; the other members as the
allocator left them. -/
def accepted_record (a : accept_result) : client_state :=
  { a.uninit with
    address :=
      { ip := [a.input_addr.s_addr.1, a.input_addr.s_addr.2.1, a.input_addr.s_addr.2.2.1,
               a.input_addr.s_addr.2.2.2] ++ List.replicate 12 0,
        port := a.input_addr.sin_port.1.val * 256 + a.input_addr.sin_port.2.val },
    fd := a.in_fd,
    read_buffer := [] }

/-- The events `handle_accept` is to add for one accepted connection, in order: the
socket made non-blocking, the record allocated, the Sink's `on_accept` (if there is
a Sink) seeing the finished record, the socket registered with the record as tag. -/
def accept_events (has_sink : Bool) (a : accept_result) : List event :=
  [event.set_fd_blocking a.in_fd false, event.new_client a.new_client]
    ++ (if has_sink then [event.on_accept a.new_client (some (accepted_record a))] else [])
    ++ [event.epoll_ctl_add a.in_fd a.new_client]

/-- The world `handle_accept` is to leave after one accepted connection: the record
made and registered, the Sink past its `on_accept`. -/
def accepted_world {σ : Type} (w : world σ) (a : accept_result) : world σ :=
  { dev := w.dev,
    sink := (match w.dev.callbacks with
      | some cb => (cb.on_accept w.sink a.new_client).2
      | none => w.sink),
    heap := Function.update w.heap a.new_client (some (accepted_record a)),
    interest := w.interest ++ [(a.in_fd, a.new_client)],
    trace := w.trace ++ accept_events w.dev.callbacks.isSome a }

/-! ## The states a device can be in -/

/-- No two live records hold the same socket handle. -/
def one_owner {σ : Type} (w : world σ) : Prop :=
  ∀ (p q : ptr) (a b : client_state),
    w.heap p = some a → w.heap q = some b → a.fd = b.fd → p = q

/-- A device in service: its listener pointer is not null, the listener record is
live, and no two live records hold the same socket handle. -/
def in_service {σ : Type} (w : world σ) : Prop :=
  w.dev.listener ≠ nullptr ∧ (∃ l, w.heap w.dev.listener = some l) ∧ one_owner w

/-- Going from `w` to `w'` the device members and every record but the one at `p`
are as they were, and the record at `p`, if it is still live, was live before and
holds the socket handle it held. -/
def keeps {σ : Type} (p : ptr) (w w' : world σ) : Prop :=
  w'.dev = w.dev
    ∧ (∀ q, q ≠ p → w'.heap q = w.heap q)
    ∧ (∀ b, w'.heap p = some b → ∃ a, w.heap p = some a ∧ a.fd = b.fd)

/-- What the kernel and the allocator guarantee of the answers in a script of
`handle_accept`, read in the state `w`: until `accept` returns `-1`, each descriptor
it returns is not negative and is held by no live record (the sockets of live
records are open, and `accept` returns a descriptor that was not open), and each
address `new` returns is not null and not the address of a live record. -/
def kernel_fresh {σ : Type} (w : world σ) : List accept_result → Prop
  | [] => True
  | a :: rest =>
    a.in_fd = -1
      ∨ (0 ≤ a.in_fd ∧ a.new_client ≠ nullptr ∧ w.heap a.new_client = none
          ∧ (∀ q s, w.heap q = some s → s.fd ≠ a.in_fd)
          ∧ kernel_fresh (accepted_world w a) rest)

/-- The states a device can reach between its construction and its destruction: the
state the constructor leaves; the state the worker leaves after one ready event,
from a reachable state, with a kernel and an allocator that keep their guarantees;
and the state a device operation leaves that is invoked, from outside the handlers,
on a connection (not on the listener record, which is a private member). -/
inductive reachable {σ : Type} : world σ → Prop
  | constructed (callbacks : Option (device_callbacks σ)) (sink : σ) (num_threads : Nat)
      (k : ctor_result) (w : world σ) :
      k.new_client ≠ nullptr → device_ctor callbacks sink num_threads k = .ok w → reachable w
  | dispatched (w : world σ) (ev : ready_event) (w' : world σ) :
      reachable w → kernel_fresh w ev.accepts → worker_events w [ev] = .ok w' → reachable w'
  | called (w : world σ) (client : ptr) (c : api_call) (w' : world σ) :
      reachable w → client ≠ w.dev.listener → run_call w client c = .ok w' → reachable w'

/-- The world in which a run ended. -/
def final_world {σ : Type} : run σ (world σ) → world σ
  | .ok w => w
  | .error e => e.2

/-- The state the constructor leaves: a device with a Sink and two worker threads,
the listener record at address 1 on socket 4. -/
def built_world : world Unit := final_world (device_ctor (some hold_sink) () 2 good_ctor)

/-- The state after the worker has handled one ready event of the listener in
`built_world`, with two connections pending: their records are at the addresses 3
and 4, on the sockets 6 and 7. -/
def served_world : world Unit := final_world (worker_events built_world [probe_event 1])

/-! ## Device operations invoked by a Sink that does not disconnect -/

theorem same_conn_refl (a : client_state) : same_conn a a := ⟨rfl, rfl, rfl, rfl⟩

theorem run_calls_quiet {σ : Type} (client : ptr) (calls : List api_call) :
    ∀ (w : world σ) (st : client_state), w.heap client = some st →
      api_call.disconnect_client ∉ calls →
      ∃ w' st', run_calls w client calls = .ok w' ∧ w'.heap client = some st'
        ∧ same_conn st' st
        ∧ (∀ q, q ≠ client → w'.heap q = w.heap q)
        ∧ w'.trace = w.trace ++ sends_of st.fd calls
        ∧ w'.interest = w.interest ∧ w'.sink = w.sink ∧ w'.dev = w.dev := by
  induction calls with
  | nil =>
    intro w st hlive _
    exact ⟨w, st, rfl, hlive, same_conn_refl st, fun _ _ => rfl, by simp [sends_of], rfl, rfl,
      rfl⟩
  | cons c cs ih =>
    intro w st hlive hq
    have hq' : api_call.disconnect_client ∉ cs := fun h => hq (List.mem_cons_of_mem _ h)
    cases c with
    | disconnect_client => exact absurd (List.mem_cons_self _ _) hq
    | set_client_userdata u =>
      have h1 : (w.store client { st with userdata := u }).heap client
          = some { st with userdata := u } := by simp [world.store]
      obtain ⟨w', st', hr, hl, hs, ho, ht, hi, hk, hd⟩ := ih _ _ h1 hq'
      refine ⟨w', st', ?_, hl, hs, ?_, ?_, hi, hk, hd⟩
      · simp only [run_calls, run_call, set_client_userdata, hlive]
        exact hr
      · intro q hne
        rw [ho q hne]
        simp [world.store, Function.update, hne]
      · rw [ht]
        simp [world.store, sends_of]
    | write_buffer b n r =>
      by_cases hr0 : r > 0
      · have h1 : ((w.log [event.send st.fd b n]).store client
            { st with bytes_written := (st.bytes_written + r.toNat) % UINT64_MOD }).heap client
            = some { st with bytes_written := (st.bytes_written + r.toNat) % UINT64_MOD } := by
          simp [world.store]
        obtain ⟨w', st', hr, hl, hs, ho, ht, hi, hk, hd⟩ := ih _ _ h1 hq'
        refine ⟨w', st', ?_, hl, hs, ?_, ?_, hi, hk, hd⟩
        · simp only [run_calls, run_call, write_buffer, hlive, hr0, if_true]
          exact hr
        · intro q hne
          rw [ho q hne]
          simp [world.store, world.log, Function.update, hne]
        · rw [ht]
          simp [world.store, world.log, sends_of]
      · have h1 : (w.log [event.send st.fd b n]).heap client = some st := by
          simpa [world.log] using hlive
        obtain ⟨w', st', hr, hl, hs, ho, ht, hi, hk, hd⟩ := ih _ _ h1 hq'
        refine ⟨w', st', ?_, hl, hs, ?_, ?_, hi, hk, hd⟩
        · simp only [run_calls, run_call, write_buffer, hlive, hr0, if_false]
          exact hr
        · intro q hne
          rw [ho q hne]
          simp [world.log]
        · rw [ht]
          simp [world.log, sends_of]

/-! ## One delivery, and a run of deliveries -/

theorem deliver_positive {σ : Type} (w : world σ) (cb : device_callbacks σ) (client : ptr)
    (st : client_state) (r : read_result)
    (hcb : w.dev.callbacks = some cb) (hpos : 0 < r.count)
    (hret : 0 ≤ (cb.on_read w.sink client (st.read_buffer ++ r.data.take r.count.toNat)
        (st.read_buffer ++ r.data.take r.count.toNat).length).ret
      ∧ (cb.on_read w.sink client (st.read_buffer ++ r.data.take r.count.toNat)
          (st.read_buffer ++ r.data.take r.count.toNat).length).ret
        ≤ ((st.read_buffer ++ r.data.take r.count.toNat).length : Int))
    (hquiet : api_call.disconnect_client ∉
      (cb.on_read w.sink client (st.read_buffer ++ r.data.take r.count.toNat)
        (st.read_buffer ++ r.data.take r.count.toNat).length).calls) :
    ∃ w' st', deliver w client st r = .ok w'
      ∧ w'.heap client = some st'
      ∧ st'.read_buffer = (st.read_buffer ++ r.data.take r.count.toNat).drop
          (cb.on_read w.sink client (st.read_buffer ++ r.data.take r.count.toNat)
            (st.read_buffer ++ r.data.take r.count.toNat).length).ret.toNat
      ∧ st'.fd = st.fd ∧ st'.address = st.address
      ∧ (∀ q, q ≠ client → w'.heap q = w.heap q)
      ∧ w'.trace = w.trace ++
          event.on_read client (st.read_buffer ++ r.data.take r.count.toNat)
            (st.read_buffer ++ r.data.take r.count.toNat).length
            (cb.on_read w.sink client (st.read_buffer ++ r.data.take r.count.toNat)
              (st.read_buffer ++ r.data.take r.count.toNat).length).ret
          :: sends_of st.fd
              (cb.on_read w.sink client (st.read_buffer ++ r.data.take r.count.toNat)
                (st.read_buffer ++ r.data.take r.count.toNat).length).calls
      ∧ w'.interest = w.interest
      ∧ w'.sink = (cb.on_read w.sink client (st.read_buffer ++ r.data.take r.count.toNat)
          (st.read_buffer ++ r.data.take r.count.toNat).length).sink
      ∧ w'.dev = w.dev := by
  generalize hrep :
    cb.on_read w.sink client (st.read_buffer ++ r.data.take r.count.toNat)
      (st.read_buffer ++ r.data.take r.count.toNat).length = reply
    at hquiet hret ⊢
  let st1 : client_state :=
    { st with bytes_read := (((st.bytes_read : Int) + r.count) % (UINT64_MOD : Int)).toNat }
  let st2 : client_state := { st1 with read_buffer := st.read_buffer ++ r.data.take r.count.toNat }
  let w3 : world σ :=
    { (((w.store client st1).store client st2).log
        [event.on_read client (st.read_buffer ++ r.data.take r.count.toNat)
          (st.read_buffer ++ r.data.take r.count.toNat).length reply.ret]) with
      sink := reply.sink }
  have h3 : w3.heap client = some st2 := by simp [w3, world.store, world.log]
  obtain ⟨w4, st4, hr, hl4, ⟨ha, hf, hb, -⟩, ho4, ht4, hi4, hk4, hd4⟩ :=
    run_calls_quiet client reply.calls w3 st2 h3 hquiet
  have hb' : st4.read_buffer = st.read_buffer ++ r.data.take r.count.toNat := hb
  have hret' : 0 ≤ reply.ret ∧ reply.ret ≤ (st4.read_buffer.length : Int) := by
    rw [hb']; exact hret
  unfold deliver
  simp only [world.store, world.log, hcb, gt_iff_lt, hpos, if_true, hrep]
  simp only [w3, st2, st1, world.store, world.log] at hr
  rw [hr]
  simp only [hl4, hret', and_self, if_true]
  refine ⟨_, { st4 with read_buffer := st4.read_buffer.drop reply.ret.toNat }, rfl, by simp,
    ?_, hf, ha, ?_, ?_, hi4, hk4, hd4⟩
  · simp [hb']
  · intro q hq
    simp only [Function.update, hq, dite_false]
    rw [ho4 q hq]
    simp [w3, world.store, world.log, Function.update, hq]
  · rw [ht4]
    simp [w3, world.store, world.log, st2, st1]

theorem deliver_no_sink {σ : Type} (w : world σ) (client : ptr) (st : client_state)
    (r : read_result) (hcb : w.dev.callbacks = none) :
    deliver w client st r = .ok (w.store client
      { st with
        bytes_read := (((st.bytes_read : Int) + r.count) % (UINT64_MOD : Int)).toNat }) := by
  unfold deliver
  simp [world.store, hcb]

theorem handle_read_positive {σ : Type} (client : ptr) :
    ∀ (rs : List read_result) (w : world σ) (st : client_state),
      w.heap client = some st →
      (∀ cb, w.dev.callbacks = some cb → well_behaved cb) →
      (∀ r ∈ rs, 0 < r.count) →
      ∃ mid st',
        (∀ tail, handle_read w client (rs ++ tail) = handle_read mid client tail)
        ∧ mid.heap client = some st'
        ∧ st'.read_buffer = (drain w.dev.callbacks client st.fd w.sink st.read_buffer rs).2.1
        ∧ st'.fd = st.fd ∧ st'.address = st.address
        ∧ (∀ q, q ≠ client → mid.heap q = w.heap q)
        ∧ mid.trace = w.trace ++ (drain w.dev.callbacks client st.fd w.sink st.read_buffer rs).1
        ∧ mid.interest = w.interest
        ∧ mid.sink = (drain w.dev.callbacks client st.fd w.sink st.read_buffer rs).2.2
        ∧ mid.dev = w.dev := by
  intro rs
  induction rs with
  | nil =>
    intro w st hlive _ _
    exact ⟨w, st, fun _ => rfl, hlive, rfl, rfl, rfl, fun _ _ => rfl, by simp [drain], rfl, rfl,
      rfl⟩
  | cons r rs ih =>
    intro w st hlive hwb hpos
    have hr : 0 < r.count := hpos r (List.mem_cons_self _ _)
    have hrs : ∀ r' ∈ rs, 0 < r'.count := fun r' h => hpos r' (List.mem_cons_of_mem _ h)
    have hne1 : r.count ≠ -1 := by omega
    have hne0 : r.count ≠ 0 := by omega
    cases hcb : w.dev.callbacks with
    | none =>
      have hd := deliver_no_sink w client st r hcb
      let st1 : client_state :=
        { st with bytes_read := (((st.bytes_read : Int) + r.count) % (UINT64_MOD : Int)).toNat }
      have hl1 : (w.store client st1).heap client = some st1 := by simp [world.store]
      have hwb1 : ∀ cb, (w.store client st1).dev.callbacks = some cb → well_behaved cb :=
        fun cb h => hwb cb h
      obtain ⟨mid, st', htail, hl, hb, hf, ha, ho, ht, hi, hk, hdv⟩ := ih _ st1 hl1 hwb1 hrs
      have hcb1 : (w.store client st1).dev.callbacks = none := hcb
      rw [hcb1] at hb ht hk
      refine ⟨mid, st', ?_, hl, ?_, hf, ha, ?_, ?_, hi, ?_, hdv⟩
      · intro tail
        rw [← htail tail]
        simp only [List.cons_append, handle_read, hlive, hne1, hne0, if_false, hd]
        rfl
      · rw [hb]; simp [drain, st1, world.store]
      · intro q hq
        rw [ho q hq]
        simp [world.store, Function.update, hq]
      · rw [ht]; simp [drain, st1, world.store]
      · rw [hk]; simp [drain, st1, world.store]
    | some cb =>
      obtain ⟨hret, hquiet⟩ := hwb cb hcb w.sink client
        (st.read_buffer ++ r.data.take r.count.toNat)
      obtain ⟨w1, st1, hd, hl1, hb1, hf1, ha1, ho1, ht1, hi1, hk1, hdv1⟩ :=
        deliver_positive w cb client st r hcb hr hret hquiet
      have hwb1 : ∀ cb, w1.dev.callbacks = some cb → well_behaved cb := by
        intro cb' h; rw [hdv1] at h; exact hwb cb' h
      obtain ⟨mid, st', htail, hl, hb, hf, ha, ho, ht, hi, hk, hdv⟩ := ih w1 st1 hl1 hwb1 hrs
      rw [hdv1, hcb, hf1, hk1, hb1] at hb ht hk
      refine ⟨mid, st', ?_, hl, ?_, hf.trans hf1, ha.trans ha1, ?_, ?_, hi.trans hi1, ?_,
        hdv.trans hdv1⟩
      · intro tail
        rw [← htail tail]
        simp only [List.cons_append, handle_read, hlive, hne1, hne0, if_false, hd]
        rfl
      · rw [hb]; simp [drain]
      · intro q hq
        rw [ho q hq, ho1 q hq]
      · rw [ht, ht1]; simp [drain]
      · rw [hk]; simp [drain]

theorem consumed_append (client : ptr) (xs ys : List event) :
    consumed client (xs ++ ys) = consumed client xs ++ consumed client ys := by
  induction xs with
  | nil => rfl
  | cons e es ih => cases e <;> simp [consumed, ih]

theorem consumed_sends (client : ptr) (fd : Int) (calls : List api_call) :
    consumed client (sends_of fd calls) = [] := by
  induction calls with
  | nil => rfl
  | cons c cs ih => cases c <;> simp [sends_of, consumed, ih]

theorem handle_read_stop {σ : Type} (w : world σ) (client : ptr) (st : client_state)
    (stop : read_result) (rest : List read_result)
    (hlive : w.heap client = some st) (hstop : stop.count = -1) :
    handle_read w client (stop :: rest) =
      .ok (if stop.errno ≠ EAGAIN then w.log [event.perror perror_site.read] else w, rest) := by
  by_cases h : stop.errno = EAGAIN <;> simp [handle_read, hlive, hstop, h]

theorem drain_round_trip {σ : Type} (cb : device_callbacks σ) (client : ptr) (fd : Int) :
    ∀ (rs : List read_result) (s : σ) (rb : List byte),
      consumed client (drain (some cb) client fd s rb rs).1
        ++ (drain (some cb) client fd s rb rs).2.1 = rb ++ delivered rs := by
  intro rs
  induction rs with
  | nil => intro s rb; simp [drain, consumed, delivered]
  | cons r rs ih =>
    intro s rb
    simp only [drain, consumed, if_true, consumed_append, consumed_sends, List.nil_append,
      List.append_assoc]
    rw [ih]
    simp [delivered, ← List.append_assoc, List.take_append_drop]

theorem delivered_chunks (chunks : List (List byte)) :
    delivered (chunks.map read_result.chunk) = chunks.flatten := by
  induction chunks with
  | nil => rfl
  | cons c cs ih =>
    simp only [delivered, List.map_cons, List.flatten_cons] at ih ⊢
    rw [ih]
    simp [read_result.chunk]

theorem chunk_count_pos (chunks : List (List byte)) (h : ∀ c ∈ chunks, c ≠ []) :
    ∀ r ∈ chunks.map read_result.chunk, 0 < r.count := by
  intro r hr
  obtain ⟨c, hc, rfl⟩ := List.mem_map.mp hr
  have : 0 < c.length := List.length_pos.mpr (h c hc)
  simp only [read_result.chunk]
  exact_mod_cast this

theorem on_reads_append (xs ys : List event) :
    on_reads (xs ++ ys) = on_reads xs ++ on_reads ys := by
  induction xs with
  | nil => rfl
  | cons e es ih => cases e <;> simp [on_reads, ih]

theorem on_reads_sends (fd : Int) (calls : List api_call) : on_reads (sends_of fd calls) = [] := by
  induction calls with
  | nil => rfl
  | cons c cs ih => cases c <;> simp [sends_of, on_reads, ih]

theorem read_sizes_append (xs ys : List event) :
    read_sizes (xs ++ ys) = read_sizes xs ++ read_sizes ys := by
  induction xs with
  | nil => rfl
  | cons e es ih => cases e <;> simp [read_sizes, ih]

theorem read_sizes_sends (fd : Int) (calls : List api_call) :
    read_sizes (sends_of fd calls) = [] := by
  induction calls with
  | nil => rfl
  | cons c cs ih => cases c <;> simp [sends_of, read_sizes, ih]

theorem well_behaved_of_consumes_nothing {σ : Type} (cb : device_callbacks σ)
    (h : consumes_nothing cb) : well_behaved cb := by
  intro s c buf
  obtain ⟨h0, hq⟩ := h s c buf
  refine ⟨?_, hq⟩
  rw [h0]
  exact ⟨le_refl 0, Int.ofNat_nonneg buf.length⟩

theorem drain_holding {σ : Type} (cb : device_callbacks σ) (client : ptr) (fd : Int)
    (h : consumes_nothing cb) :
    ∀ (chunks : List (List byte)) (s : σ) (rb : List byte),
      (∀ c ∈ chunks, c ≠ []) →
      (drain (some cb) client fd s rb (chunks.map read_result.chunk)).2.1 = rb ++ chunks.flatten
      ∧ on_reads (drain (some cb) client fd s rb (chunks.map read_result.chunk)).1
          = (List.range chunks.length).map (fun j =>
              event.on_read client (rb ++ (chunks.take (j + 1)).flatten)
                (rb ++ (chunks.take (j + 1)).flatten).length 0)
      ∧ List.Chain (· < ·) rb.length
          (read_sizes (drain (some cb) client fd s rb (chunks.map read_result.chunk)).1) := by
  intro chunks
  induction chunks with
  | nil => intro s rb _; simp [drain, on_reads, read_sizes]
  | cons c cs ih =>
    intro s rb hne
    have hc : c ≠ [] := hne c (List.mem_cons_self _ _)
    have hcs : ∀ c' ∈ cs, c' ≠ [] := fun c' h' => hne c' (List.mem_cons_of_mem _ h')
    have h0 := (h s client (rb ++ c)).1
    obtain ⟨ihb, iho, ihc⟩ :=
      ih (cb.on_read s client (rb ++ c) (rb ++ c).length).sink (rb ++ c) hcs
    have hdata : (read_result.chunk c).data.take (read_result.chunk c).count.toNat = c := by
      simp [read_result.chunk]
    simp only [List.map_cons, drain, hdata, h0, Int.toNat_zero, List.drop_zero]
    refine ⟨?_, ?_, ?_⟩
    · rw [ihb]; simp
    · simp only [on_reads, on_reads_append, on_reads_sends, List.nil_append, iho,
        List.length_cons, List.range_succ_eq_map, List.map_cons, List.map_map]
      congr 1
      · simp
      · apply List.map_congr_left
        intro j _
        simp [List.append_assoc]
    · simp only [read_sizes, read_sizes_append, read_sizes_sends, List.nil_append]
      refine List.Chain.cons ?_ ihc
      have : 0 < c.length := List.length_pos.mpr hc
      simp only [List.length_append]
      omega

theorem drain_events_shape {σ : Type} (cbs : Option (device_callbacks σ)) (client : ptr)
    (fd : Int) :
    ∀ (rs : List read_result) (s : σ) (rb : List byte),
      ∀ e ∈ (drain cbs client fd s rb rs).1,
        (∃ b n r, e = event.on_read client b n r) ∨ (∃ b n, e = event.send fd b n) := by
  have hsend : ∀ (calls : List api_call), ∀ e ∈ sends_of fd calls,
      ∃ b n, e = event.send fd b n := by
    intro calls
    induction calls with
    | nil => intro e he; simp [sends_of] at he
    | cons c cs ih =>
      intro e he
      cases c with
      | disconnect_client => exact ih e (by simpa [sends_of] using he)
      | set_client_userdata u => exact ih e (by simpa [sends_of] using he)
      | write_buffer b n r =>
        simp only [sends_of, List.mem_cons] at he
        rcases he with rfl | he
        · exact ⟨b, n, rfl⟩
        · exact ih e he
  intro rs
  induction rs with
  | nil => intro s rb e he; simp [drain] at he
  | cons r rs ih =>
    intro s rb e he
    cases cbs with
    | none => exact ih s rb e (by simpa [drain] using he)
    | some cb =>
      simp only [drain, List.mem_cons, List.mem_append] at he
      rcases he with rfl | he | he
      · exact Or.inl ⟨_, _, _, rfl⟩
      · exact Or.inr (hsend _ e he)
      · exact ih _ _ e he

theorem drain_no_teardown {σ : Type} (cbs : Option (device_callbacks σ)) (client : ptr)
    (fd : Int) (rs : List read_result) (s : σ) (rb : List byte) :
    ∀ e ∈ (drain cbs client fd s rb rs).1, is_teardown e = false := by
  intro e he
  rcases drain_events_shape cbs client fd rs s rb e he with ⟨b, n, r, rfl⟩ | ⟨b, n, rfl⟩ <;>
    rfl

theorem destroyed_of_no_teardown (client : ptr) (es : List event)
    (h : ∀ e ∈ es, is_teardown e = false) : destroyed client es = 0 := by
  unfold destroyed
  rw [List.count_eq_zero]
  intro hmem
  have := h _ hmem
  simp [is_teardown] at this

theorem disconnects_of_no_teardown (client : ptr) (es : List event)
    (h : ∀ e ∈ es, is_teardown e = false) : disconnects client es = 0 := by
  induction es with
  | nil => rfl
  | cons e es ih =>
    have he := h e (List.mem_cons_self _ _)
    have hes := ih (fun e' h' => h e' (List.mem_cons_of_mem _ h'))
    cases e <;> simp_all [disconnects, is_teardown]

theorem destroyed_append (client : ptr) (xs ys : List event) :
    destroyed client (xs ++ ys) = destroyed client xs + destroyed client ys := by
  simp [destroyed]

theorem disconnects_append (client : ptr) (xs ys : List event) :
    disconnects client (xs ++ ys) = disconnects client xs + disconnects client ys := by
  induction xs with
  | nil => simp [disconnects]
  | cons e es ih => cases e <;> simp [disconnects, ih, Nat.add_assoc]

theorem retained_append (client : ptr) (xs ys : List event) :
    ∀ rb, retained client rb (xs ++ ys) = retained client (retained client rb xs) ys := by
  induction xs with
  | nil => intro rb; rfl
  | cons e es ih => intro rb; cases e <;> simp [retained, ih]

theorem retained_sends (client : ptr) (fd : Int) (calls : List api_call) (rb : List byte) :
    retained client rb (sends_of fd calls) = rb := by
  induction calls with
  | nil => rfl
  | cons c cs ih => cases c <;> simp [sends_of, retained, ih]

theorem retained_drain {σ : Type} (cbs : Option (device_callbacks σ)) (client : ptr)
    (fd : Int) :
    ∀ (rs : List read_result) (s : σ) (rb : List byte),
      retained client rb (drain cbs client fd s rb rs).1 = (drain cbs client fd s rb rs).2.1 := by
  intro rs
  induction rs with
  | nil => intro s rb; rfl
  | cons r rs ih =>
    intro s rb
    cases cbs with
    | none => simpa [drain] using ih s rb
    | some cb =>
      simp only [drain, retained, if_true, retained_append, retained_sends]
      exact ih _ _

theorem on_reads_drain_length {σ : Type} (cb : device_callbacks σ) (client : ptr)
    (fd : Int) :
    ∀ (rs : List read_result) (s : σ) (rb : List byte),
      (on_reads (drain (some cb) client fd s rb rs).1).length = rs.length := by
  intro rs
  induction rs with
  | nil => intro s rb; rfl
  | cons r rs ih =>
    intro s rb
    simp only [drain, on_reads, on_reads_append, on_reads_sends, List.nil_append,
      List.length_cons, ih]

theorem drain_no_sink {σ : Type} (client : ptr) (fd : Int) :
    ∀ (rs : List read_result) (s : σ) (rb : List byte),
      drain (none : Option (device_callbacks σ)) client fd s rb rs = ([], rb, s) := by
  intro rs
  induction rs with
  | nil => intro s rb; rfl
  | cons r rs ih => intro s rb; simpa [drain] using ih s rb

/-! ## Disconnecting a live record -/

theorem disconnect_client_live {σ : Type} (w : world σ) (client : ptr) (st : client_state)
    (hnn : client ≠ nullptr) (hlive : w.heap client = some st) :
    ∃ w', disconnect_client w client = .ok w'
      ∧ w'.trace = w.trace ++
          ((match w.dev.callbacks with
            | some _ => [event.on_disconnect client (some st)]
            | none => []) ++
          [event.epoll_ctl_del st.fd, event.shutdown st.fd, event.close st.fd,
           event.delete_client client])
      ∧ w'.heap client = none
      ∧ (∀ q, q ≠ client → w'.heap q = w.heap q)
      ∧ w'.interest = w.interest.filter (fun r => r.1 ≠ st.fd)
      ∧ w'.sink = (match w.dev.callbacks with
          | some cb => (cb.on_disconnect w.sink client).2
          | none => w.sink)
      ∧ w'.dev = w.dev := by
  cases hcb : w.dev.callbacks with
  | none =>
    simp only [disconnect_client, hcb, hnn, if_false, world.log, hlive, deallocate_client]
    refine ⟨_, rfl, ?_, ?_, ?_, rfl, rfl, rfl⟩
    · simp
    · simp
    · intro q hq
      simp [Function.update, hq]
  | some cb =>
    simp only [disconnect_client, hcb, hnn, if_false, world.log, hlive, deallocate_client]
    refine ⟨_, rfl, ?_, ?_, ?_, rfl, rfl, rfl⟩
    · simp [List.append_assoc]
    · simp
    · intro q hq
      simp [Function.update, hq]

theorem disconnects_spawn (client : ptr) (ids : List Nat) :
    disconnects client (ids.map event.spawn_thread) = 0 := by
  induction ids with
  | nil => rfl
  | cons i is ih => simpa [disconnects] using ih

/-! ## Accepting connections -/

theorem handle_accept_one {σ : Type} (w : world σ) (l : client_state) (a : accept_result)
    (tail : List accept_result)
    (hl : w.heap w.dev.listener = some l)
    (hfd : 0 ≤ a.in_fd) (hctl : a.epoll_ctl ≠ -1) :
    handle_accept w (a :: tail) = handle_accept (accepted_world w a) tail := by
  have hne : a.in_fd ≠ -1 := by omega
  have hnn : ¬ a.in_fd < 0 := by omega
  cases hcb : w.dev.callbacks with
  | none =>
    simp only [handle_accept, hl, hne, if_false, set_fd_blocking, hnn, allocate_client,
      world.store, world.log, Function.update_same, hcb, hctl]
    congr 1
    simp [accepted_world, hcb, accept_events, accepted_record, sockaddr_in_to_address,
      address.zero, ntohs]
  | some cb =>
    simp only [handle_accept, hl, hne, if_false, set_fd_blocking, hnn, allocate_client,
      world.store, world.log, Function.update_same, hcb, hctl]
    congr 1
    simp [accepted_world, hcb, accept_events, accepted_record, sockaddr_in_to_address,
      address.zero, ntohs]

theorem accepted_fold_facts {σ : Type} :
    ∀ (accepts : List accept_result) (w : world σ),
      (accepts.foldl accepted_world w).dev = w.dev
      ∧ (accepts.foldl accepted_world w).trace
          = w.trace ++ (accepts.map (accept_events w.dev.callbacks.isSome)).flatten
      ∧ (accepts.foldl accepted_world w).interest
          = w.interest ++ accepts.map (fun a => (a.in_fd, a.new_client))
      ∧ (∀ q, (∀ a ∈ accepts, a.new_client ≠ q) →
          (accepts.foldl accepted_world w).heap q = w.heap q)
      ∧ ((accepts.map accept_result.new_client).Nodup →
          ∀ a ∈ accepts,
            (accepts.foldl accepted_world w).heap a.new_client = some (accepted_record a)) := by
  intro accepts
  induction accepts with
  | nil => intro w; simp
  | cons a as ih =>
    intro w
    obtain ⟨hd, ht, hi, ho, hn⟩ := ih (accepted_world w a)
    have hdev : (accepted_world w a).dev = w.dev := rfl
    simp only [List.foldl_cons]
    refine ⟨hd.trans hdev, ?_, ?_, ?_, ?_⟩
    · rw [ht, hdev]; simp [accepted_world, List.append_assoc]
    · rw [hi]; simp [accepted_world, List.append_assoc]
    · intro q hq
      rw [ho q (fun a' ha' => hq a' (List.mem_cons_of_mem _ ha'))]
      have : a.new_client ≠ q := hq a (List.mem_cons_self _ _)
      simp [accepted_world, Function.update, Ne.symm this]
    · intro hnd a' ha'
      simp only [List.map_cons, List.nodup_cons, List.mem_map, not_exists, not_and] at hnd
      rcases List.mem_cons.mp ha' with rfl | hin
      · rw [ho a'.new_client (fun b hb heq => hnd.1 b hb heq)]
        simp [accepted_world]
      · exact hn hnd.2 a' hin

theorem handle_accept_run {σ : Type} (l : client_state) (tail : List accept_result) :
    ∀ (accepts : List accept_result) (w : world σ),
      w.heap w.dev.listener = some l →
      (∀ a ∈ accepts, 0 ≤ a.in_fd ∧ a.epoll_ctl ≠ -1) →
      (∀ a ∈ accepts, w.heap a.new_client = none) →
      (accepts.map accept_result.new_client).Nodup →
      handle_accept w (accepts ++ tail)
        = handle_accept (accepts.foldl accepted_world w) tail := by
  intro accepts
  induction accepts with
  | nil => intro w _ _ _ _; rfl
  | cons a as ih =>
    intro w hl hok hfresh hnd
    simp only [List.map_cons, List.nodup_cons, List.mem_map, not_exists, not_and] at hnd
    have ha := hok a (List.mem_cons_self _ _)
    have hfa := hfresh a (List.mem_cons_self _ _)
    have hne : w.dev.listener ≠ a.new_client := by
      intro h
      rw [h, hfa] at hl
      cases hl
    rw [List.cons_append, handle_accept_one w l a (as ++ tail) hl ha.1 ha.2, List.foldl_cons]
    apply ih
    · simp [accepted_world, Function.update, hne, hl]
    · exact fun a' h' => hok a' (List.mem_cons_of_mem _ h')
    · intro a' h'
      have hda : a.new_client ≠ a'.new_client := fun heq => hnd.1 a' h' heq.symm
      simp [accepted_world, Function.update, Ne.symm hda,
        hfresh a' (List.mem_cons_of_mem _ h')]
    · exact hnd.2

theorem accept_events_no_teardown (has_sink : Bool) (a : accept_result) :
    ∀ e ∈ accept_events has_sink a, is_teardown e = false := by
  intro e he
  cases has_sink
  · simp only [accept_events, Bool.false_eq_true, if_false, List.append_nil, List.cons_append,
      List.nil_append, List.mem_cons, List.mem_singleton, List.not_mem_nil, or_false] at he
    rcases he with rfl | rfl | rfl <;> rfl
  · simp only [accept_events, if_true, List.cons_append, List.nil_append, List.mem_cons,
      List.mem_singleton, List.not_mem_nil, or_false] at he
    rcases he with rfl | rfl | rfl | rfl <;> rfl

/-! ## Every reachable state is in service -/

theorem keeps_refl {σ : Type} (p : ptr) (w : world σ) : keeps p w w :=
  ⟨rfl, fun _ _ => rfl, fun b h => ⟨b, h, rfl⟩⟩

theorem keeps_trans {σ : Type} (p : ptr) (w1 w2 w3 : world σ)
    (h12 : keeps p w1 w2) (h23 : keeps p w2 w3) : keeps p w1 w3 := by
  obtain ⟨d1, o1, f1⟩ := h12
  obtain ⟨d2, o2, f2⟩ := h23
  refine ⟨d2.trans d1, fun q hq => (o2 q hq).trans (o1 q hq), ?_⟩
  intro b hb
  obtain ⟨m, hm, hmf⟩ := f2 b hb
  obtain ⟨a, ha, haf⟩ := f1 m hm
  exact ⟨a, ha, haf.trans hmf⟩

theorem keeps_log {σ : Type} (p : ptr) (w : world σ) (es : List event) : keeps p w (w.log es) :=
  ⟨rfl, fun _ _ => rfl, fun b h => ⟨b, h, rfl⟩⟩

theorem keeps_store {σ : Type} (p : ptr) (w : world σ) (st st' : client_state)
    (hlive : w.heap p = some st) (hfd : st'.fd = st.fd) : keeps p w (w.store p st') := by
  refine ⟨rfl, ?_, ?_⟩
  · intro q hq
    simp [world.store, Function.update, hq]
  · intro b hb
    simp only [world.store, Function.update_same, Option.some.injEq] at hb
    exact ⟨st, hlive, by rw [← hb, hfd]⟩

theorem keeps_in_service {σ : Type} (p : ptr) (w w' : world σ)
    (hs : in_service w) (hk : keeps p w w') (hp : p ≠ w.dev.listener) : in_service w' := by
  obtain ⟨hnn, ⟨l, hl⟩, hone⟩ := hs
  obtain ⟨hd, ho, hf⟩ := hk
  have back : ∀ q b, w'.heap q = some b → ∃ a, w.heap q = some a ∧ a.fd = b.fd := by
    intro q b hb
    by_cases hq : q = p
    · subst hq; exact hf b hb
    · rw [ho q hq] at hb; exact ⟨b, hb, rfl⟩
  refine ⟨by rw [hd]; exact hnn, ⟨l, ?_⟩, ?_⟩
  · rw [hd, ho _ (Ne.symm hp)]; exact hl
  · intro q1 q2 b1 b2 h1 h2 hfd
    obtain ⟨a1, ha1, hf1⟩ := back q1 b1 h1
    obtain ⟨a2, ha2, hf2⟩ := back q2 b2 h2
    exact hone q1 q2 a1 a2 ha1 ha2 (by rw [hf1, hf2, hfd])

theorem deallocate_client_keeps {σ : Type} (w w' : world σ) (p : ptr)
    (h : deallocate_client w p = .ok w') : keeps p w w' := by
  unfold deallocate_client at h
  split at h
  · cases h; exact keeps_refl p w
  · split at h
    · cases h
    · cases h
      refine ⟨rfl, ?_, ?_⟩
      · intro q hq
        simp [world.log, Function.update, hq]
      · intro b hb
        simp [world.log] at hb

theorem disconnect_client_keeps {σ : Type} (w w' : world σ) (p : ptr)
    (h : disconnect_client w p = .ok w') : keeps p w w' := by
  unfold disconnect_client at h
  split at h
  · cases h; exact keeps_refl p w
  · simp only at h
    split at h
    · cases h
    · rename_i st hst
      have hk := deallocate_client_keeps _ _ _ h
      refine keeps_trans p w _ w' ?_ hk
      refine ⟨?_, ?_, ?_⟩
      · cases w.dev.callbacks <;> rfl
      · intro q _
        cases w.dev.callbacks <;> rfl
      · intro b hb
        refine ⟨b, ?_, rfl⟩
        cases hcb : w.dev.callbacks <;> simp only [hcb, world.log] at hb <;> exact hb

theorem run_call_keeps {σ : Type} (w w' : world σ) (p : ptr) (c : api_call)
    (h : run_call w p c = .ok w') : keeps p w w' := by
  cases c with
  | disconnect_client => exact disconnect_client_keeps w w' p h
  | set_client_userdata u =>
    simp only [run_call, set_client_userdata] at h
    split at h
    · cases h
    · rename_i st hst
      cases h
      exact keeps_store p w st _ hst rfl
  | write_buffer b n r =>
    simp only [run_call, write_buffer] at h
    split at h
    · rename_i w1 x hw
      cases h
      split at hw
      · cases hw
      · rename_i st hst
        split at hw
        · cases hw
          have h1 : (w.log [event.send st.fd b n]).heap p = some st := hst
          exact keeps_trans p w _ _ (keeps_log p w _) (keeps_store p _ st _ h1 rfl)
        · cases hw
          exact keeps_log p w _
    · cases h

theorem run_calls_keeps {σ : Type} (p : ptr) (calls : List api_call) :
    ∀ (w w' : world σ), run_calls w p calls = .ok w' → keeps p w w' := by
  induction calls with
  | nil =>
    intro w w' h
    cases h
    exact keeps_refl p w
  | cons c cs ih =>
    intro w w' h
    simp only [run_calls] at h
    split at h
    · rename_i w1 hw1
      exact keeps_trans p w w1 w' (run_call_keeps w w1 p c hw1) (ih w1 w' h)
    · cases h

theorem keeps_sink_trace {σ : Type} (p : ptr) (w : world σ) (s : σ) (t : List event) :
    keeps p w { w with sink := s, trace := t } :=
  ⟨rfl, fun _ _ => rfl, fun b h => ⟨b, h, rfl⟩⟩

theorem deliver_keeps {σ : Type} (w w' : world σ) (p : ptr) (st : client_state)
    (r : read_result) (hlive : w.heap p = some st)
    (h : deliver w p st r = .ok w') : keeps p w w' := by
  let st1 : client_state :=
    { st with bytes_read := (((st.bytes_read : Int) + r.count) % (UINT64_MOD : Int)).toNat }
  let st2 : client_state := { st1 with read_buffer := st1.read_buffer ++ r.data.take r.count.toNat }
  have k1 : keeps p w (w.store p st1) := keeps_store p w st _ hlive rfl
  have k2 : keeps p w ((w.store p st1).store p st2) :=
    keeps_trans p w _ _ k1 (keeps_store p _ st1 st2 (by simp [world.store]) rfl)
  unfold deliver at h
  simp only at h
  split at h
  · cases h; exact k1
  · rename_i cb hcb
    split at h
    · split at h
      · cases h
      · rename_i w4 hcalls
        have k3 := run_calls_keeps p _ _ _ hcalls
        have k4 : keeps p w w4 :=
          keeps_trans p w _ w4 (keeps_trans p w _ _ k2 (keeps_sink_trace p _ _ _)) k3
        split at h
        · cases h
        · rename_i st4 hst4
          split at h
          · cases h
            exact keeps_trans p w w4 _ k4 (keeps_store p w4 st4 _ hst4 rfl)
          · cases h
    · cases h; exact k1

theorem handle_read_keeps {σ : Type} (p : ptr) :
    ∀ (script : List read_result) (w w' : world σ) (rest : List read_result),
      handle_read w p script = .ok (w', rest) → keeps p w w' := by
  intro script
  induction script with
  | nil => intro w w' rest h; cases h
  | cons r rs ih =>
    intro w w' rest h
    simp only [handle_read] at h
    split at h
    · cases h
    · rename_i st hst
      split at h
      · split at h
        · cases h; exact keeps_log p w _
        · cases h; exact keeps_refl p w
      · split at h
        · split at h
          · rename_i w1 hw1
            cases h
            exact disconnect_client_keeps w _ p hw1
          · cases h
        · split at h
          · rename_i w1 hw1
            exact keeps_trans p w w1 w' (deliver_keeps w w1 p st r hst hw1) (ih w1 w' rest h)
          · cases h

theorem accepted_world_in_service {σ : Type} (w : world σ) (a : accept_result)
    (hs : in_service w) (hfresh : w.heap a.new_client = none)
    (hfd : ∀ q s, w.heap q = some s → s.fd ≠ a.in_fd) : in_service (accepted_world w a) := by
  obtain ⟨hnn, ⟨l, hl⟩, hone⟩ := hs
  have hne : w.dev.listener ≠ a.new_client := by
    intro h
    rw [h, hfresh] at hl
    cases hl
  have hheap : ∀ q, (accepted_world w a).heap q
      = if q = a.new_client then some (accepted_record a) else w.heap q := by
    intro q
    simp [accepted_world, Function.update]
  refine ⟨hnn, ⟨l, ?_⟩, ?_⟩
  · show (accepted_world w a).heap w.dev.listener = some l
    rw [hheap, if_neg hne]
    exact hl
  · intro q1 q2 b1 b2 h1 h2 hf
    rw [hheap] at h1 h2
    by_cases e1 : q1 = a.new_client
    · by_cases e2 : q2 = a.new_client
      · rw [e1, e2]
      · rw [if_pos e1] at h1
        rw [if_neg e2] at h2
        cases h1
        exact absurd hf.symm (hfd q2 b2 h2)
    · by_cases e2 : q2 = a.new_client
      · rw [if_neg e1] at h1
        rw [if_pos e2] at h2
        cases h2
        exact absurd hf (hfd q1 b1 h1)
      · rw [if_neg e1] at h1
        rw [if_neg e2] at h2
        exact hone q1 q2 b1 b2 h1 h2 hf

theorem handle_accept_in_service {σ : Type} :
    ∀ (script : List accept_result) (w w' : world σ) (rest : List accept_result),
      in_service w → kernel_fresh w script → handle_accept w script = .ok (w', rest) →
      in_service w' := by
  intro script
  induction script with
  | nil => intro w w' rest _ _ h; cases h
  | cons a tail ih =>
    intro w w' rest hs hk h
    obtain ⟨l, hl⟩ := hs.2.1
    by_cases hstop : a.in_fd = -1
    · simp only [handle_accept, hl, hstop, if_true] at h
      split at h
      · cases h; exact hs
      · cases h; exact hs
    · simp only [kernel_fresh, hstop, false_or] at hk
      obtain ⟨hfd, -, hfresh, hown, hk'⟩ := hk
      by_cases hctl : a.epoll_ctl = -1
      · exfalso
        have hnn : ¬ a.in_fd < 0 := by omega
        cases hcb : w.dev.callbacks <;>
          simp [handle_accept, hl, hstop, set_fd_blocking, hnn, allocate_client, world.store,
            world.log, hcb, hctl] at h
      · rw [handle_accept_one w l a tail hl hfd hctl] at h
        exact ih _ w' rest (accepted_world_in_service w a hs hfresh hown) hk' h

theorem set_fd_blocking_heap {σ : Type} (w : world σ) (fd : Int) (b : Bool) :
    (set_fd_blocking w fd b).heap = w.heap := by
  unfold set_fd_blocking
  split <;> rfl

theorem set_fd_blocking_dev {σ : Type} (w : world σ) (fd : Int) (b : Bool) :
    (set_fd_blocking w fd b).dev = w.dev := by
  unfold set_fd_blocking
  split <;> rfl

theorem device_ctor_in_service {σ : Type} (callbacks : Option (device_callbacks σ)) (sink : σ)
    (num_threads : Nat) (k : ctor_result) (w : world σ)
    (hnn : k.new_client ≠ nullptr)
    (h : device_ctor callbacks sink num_threads k = .ok w) : in_service w := by
  have hshape : w.dev.listener = k.new_client
      ∧ w.heap = Function.update (fun _ => none) k.new_client
          (some { k.uninit with address := address.zero, read_buffer := [], fd := k.socket }) := by
    unfold device_ctor at h
    simp only [create_socket, set_fd_blocking_heap, set_fd_blocking_dev, allocate_client,
      world.store, world.log, Function.update_same] at h
    by_cases hb : k.bind = 0
    · by_cases hli : k.listen = 0
      · by_cases hc : k.epoll_ctl = -1
        · simp [hb, hli, hc] at h
        · cases hcb : callbacks with
          | none =>
            simp only [hb, hli, hc, ne_eq, not_true_eq_false, if_false, hcb,
              set_fd_blocking_dev] at h
            have hw := Except.ok.inj h
            rw [← hw]
            exact ⟨by simp [set_fd_blocking_dev], by simp [set_fd_blocking_heap]⟩
          | some cb =>
            simp only [hb, hli, hc, ne_eq, not_true_eq_false, if_false, hcb,
              set_fd_blocking_dev] at h
            have hw := Except.ok.inj h
            rw [← hw]
            exact ⟨by simp [set_fd_blocking_dev], by simp [set_fd_blocking_heap]⟩
      · simp [hb, hli] at h
    · simp [hb] at h
  obtain ⟨hl, hheap⟩ := hshape
  refine ⟨by rw [hl]; exact hnn, ⟨_, by rw [hheap, hl, Function.update_same]⟩, ?_⟩
  intro q1 q2 b1 b2 h1 h2 _
  rw [hheap] at h1 h2
  by_cases e1 : q1 = k.new_client
  · by_cases e2 : q2 = k.new_client
    · rw [e1, e2]
    · rw [Function.update_noteq e2] at h2; cases h2
  · rw [Function.update_noteq e1] at h1; cases h1

theorem worker_events_route {σ : Type} (w : world σ) (ev : ready_event)
    (evs : List ready_event) (r l : client_state)
    (hnn : ev.data_ptr ≠ nullptr) (hr : w.heap ev.data_ptr = some r)
    (hl : w.heap w.dev.listener = some l) :
    (r.fd = l.fd →
      worker_events w (ev :: evs) =
        match handle_accept w ev.accepts with
        | .ok (w', _) => worker_events w' evs
        | .error e => .error e)
    ∧ (r.fd ≠ l.fd →
      worker_events w (ev :: evs) =
        match handle_read w ev.data_ptr ev.reads with
        | .ok (w', _) => worker_events w' evs
        | .error e => .error e) := by
  constructor
  · intro h
    simp only [worker_events, hnn, ne_eq, not_false_eq_true, if_true, hr, hl, h]
  · intro h
    simp only [worker_events, hnn, ne_eq, not_false_eq_true, if_true, hr, hl, h, if_false]

theorem reachable_in_service {σ : Type} (w : world σ) (h : reachable w) : in_service w := by
  induction h with
  | constructed callbacks sink num_threads k w hnn hctor =>
    exact device_ctor_in_service callbacks sink num_threads k w hnn hctor
  | dispatched w ev w' _ hfresh hrun ih =>
    obtain ⟨hnn, ⟨l, hl⟩, hone⟩ := ih
    by_cases hnull : ev.data_ptr = nullptr
    · simp only [worker_events, hnull, ne_eq, not_true_eq_false, if_false] at hrun
      cases hrun
      exact ⟨hnn, ⟨l, hl⟩, hone⟩
    · cases hr : w.heap ev.data_ptr with
      | none => simp [worker_events, hnull, hr] at hrun
      | some r =>
        obtain ⟨hacc, hread⟩ := worker_events_route w ev [] r l hnull hr hl
        by_cases hfd : r.fd = l.fd
        · rw [hacc hfd] at hrun
          split at hrun
          · rename_i w1 rest hw1
            simp only [worker_events] at hrun
            cases hrun
            exact handle_accept_in_service ev.accepts w _ rest ⟨hnn, ⟨l, hl⟩, hone⟩ hfresh
              hw1
          · cases hrun
        · rw [hread hfd] at hrun
          split at hrun
          · rename_i w1 rest hw1
            simp only [worker_events] at hrun
            cases hrun
            have hp : ev.data_ptr ≠ w.dev.listener := by
              intro he
              rw [he, hl] at hr
              cases hr
              exact hfd rfl
            exact keeps_in_service ev.data_ptr w _ ⟨hnn, ⟨l, hl⟩, hone⟩
              (handle_read_keeps ev.data_ptr ev.reads w _ rest hw1) hp
          · cases hrun
  | called w client c w' _ hne hrun ih =>
    exact keeps_in_service client w w' ih (run_call_keeps w w' client c hrun) hne

theorem built_world_reachable : reachable built_world :=
  reachable.constructed (some hold_sink) () 2 good_ctor built_world (by decide) rfl

theorem served_world_reachable : reachable served_world := by
  have hheap : built_world.heap
      = Function.update (fun _ => none) 1 (some { junk with fd := 4 }) := by
    funext q
    by_cases hq : q = 1
    · subst hq; rfl
    · have : built_world.heap q = (Function.update (Function.update (fun _ => none) 1
          (some { junk with address := address.zero, read_buffer := [] })) 1
          (some { junk with address := address.zero, read_buffer := [], fd := 4 })) q := rfl
      rw [this]
      simp [Function.update, hq]
  have hown : ∀ (fd : Int), fd ≠ 4 →
      ∀ q s, built_world.heap q = some s → s.fd ≠ fd := by
    intro fd hfd q s h
    rw [hheap] at h
    by_cases hq : q = 1
    · subst hq
      rw [Function.update_same] at h
      cases h
      exact fun e => hfd e.symm
    · rw [Function.update_noteq hq] at h
      cases h
  refine reachable.dispatched built_world (probe_event 1) served_world built_world_reachable
    ?_ rfl
  refine Or.inr ⟨by decide, by decide, rfl, hown 6 (by decide), ?_⟩
  refine Or.inr ⟨by decide, by decide, rfl, ?_, Or.inl rfl⟩
  intro q s h
  by_cases hq : q = 3
  · subst hq
    have h3 : (accepted_world built_world
        { in_fd := 6, errno := 0,
          input_addr := { sin_port := (31, 144), s_addr := (127, 0, 0, 1) },
          new_client := 3, uninit := junk, epoll_ctl := 0 }).heap 3 = some s := h
    simp only [accepted_world, Function.update_same, Option.some.injEq] at h3
    rw [← h3]
    decide
  · have hq' : (accepted_world built_world
        { in_fd := 6, errno := 0,
          input_addr := { sin_port := (31, 144), s_addr := (127, 0, 0, 1) },
          new_client := 3, uninit := junk, epoll_ctl := 0 }).heap q = built_world.heap q := by
      simp [accepted_world, Function.update, hq]
    exact hown 7 (by decide) q s (hq'.symm.trans h)

/-- C1. Round trip of the framing of `handle_read`: on a device with a Sink whose
`on_read` always returns a count in `[0, size]` (and does not disconnect), for a
connection whose `read_buffer` is empty and any run of reads that deliver the
non-empty chunks `chunks` (1 to 512 octets each) and then fail (would-block or an
error), the handler returns, and the octets the Sink consumed over all `on_read`
calls of the run, followed by the `read_buffer` the record retains, are exactly the
chunks in order. -/
theorem handle_read_round_trip {σ : Type} (w : world σ) (cb : device_callbacks σ)
    (client : ptr) (st : client_state) (chunks : List (List byte)) (stop : read_result)
    (rest : List read_result)
    (hcb : w.dev.callbacks = some cb) (hwb : well_behaved cb)
    (hlive : w.heap client = some st) (hempty : st.read_buffer = [])
    (hchunks : ∀ c ∈ chunks, 1 ≤ c.length ∧ c.length ≤ 512)
    (hstop : stop.count = -1) :
    ∃ w' st' new,
      handle_read w client (chunks.map read_result.chunk ++ stop :: rest) = .ok (w', rest)
      ∧ w'.trace = w.trace ++ new
      ∧ w'.heap client = some st'
      ∧ consumed client new ++ st'.read_buffer = chunks.flatten := by
  have hne : ∀ c ∈ chunks, c ≠ [] := by
    intro c hc h
    have := (hchunks c hc).1
    simp [h] at this
  have hwb' : ∀ cb', w.dev.callbacks = some cb' → well_behaved cb' := by
    intro cb' h
    rw [hcb] at h
    cases h
    exact hwb
  obtain ⟨mid, st', htail, hl, hb, -, -, -, ht, -, -, -⟩ :=
    handle_read_positive client (chunks.map read_result.chunk) w st hlive hwb'
      (chunk_count_pos chunks hne)
  rw [hcb, hempty] at hb ht
  have hrt := drain_round_trip cb client st.fd (chunks.map read_result.chunk) w.sink []
  rw [delivered_chunks, List.nil_append] at hrt
  rw [htail, handle_read_stop mid client st' stop rest hl hstop]
  by_cases he : stop.errno = EAGAIN
  · refine ⟨mid, st', _, ?_, ht, hl, ?_⟩
    · simp [he]
    · rw [hb]; exact hrt
  · refine ⟨mid.log [event.perror perror_site.read], st',
      (drain (some cb) client st.fd w.sink [] (chunks.map read_result.chunk)).1
        ++ [event.perror perror_site.read], ?_, ?_, ?_, ?_⟩
    · simp [he]
    · simp only [world.log, ht, List.append_assoc]
    · simpa [world.log] using hl
    · rw [consumed_append, hb]
      simp only [consumed, List.append_nil]
      exact hrt

theorem handle_read_round_trip_witness :
    well_behaved (frame_sink 4)
    ∧ ∃ w' st' new,
      handle_read (two_record_world (some (frame_sink 4)) ()) 2
        ([[112], [105, 110, 103], [33]].map read_result.chunk ++ read_result.would_block :: [])
        = .ok (w', [])
      ∧ w'.trace = (two_record_world (some (frame_sink 4)) ()).trace ++ new
      ∧ w'.heap 2 = some st'
      ∧ consumed 2 new ++ st'.read_buffer = [112, 105, 110, 103, 33] :=
  have hwb : well_behaved (frame_sink 4) := by
    intro s c buf
    simp only [frame_sink, List.not_mem_nil, not_false_eq_true, and_true]
    omega
  ⟨hwb, handle_read_round_trip (two_record_world (some (frame_sink 4)) ()) (frame_sink 4) 2
    { blank with fd := 5 } [[112], [105, 110, 103], [33]] read_result.would_block [] rfl hwb
    rfl rfl (by decide) rfl⟩

/-- C2. One delivery step of `handle_read`: on a device with a Sink, for a live
connection whose `read_buffer` is `B` and a read that returns the chunk `C` of 1 to
512 octets (followed by a read that fails), `on_read` is called exactly once, with
the buffer `B ++ C` and the size `|B| + |C|`; if that call returns `n` with
`0 ≤ n ≤ |B| + |C|` (and does not disconnect), the handler returns and the record's
`read_buffer` is `B ++ C` without its first `n` octets: all of `B ++ C` for `n = 0`,
nothing for `n = |B| + |C|`. -/
theorem handle_read_one_delivery {σ : Type} (w : world σ) (cb : device_callbacks σ)
    (client : ptr) (st : client_state) (C : List byte) (stop : read_result)
    (rest : List read_result)
    (hcb : w.dev.callbacks = some cb) (hlive : w.heap client = some st)
    (hC : 1 ≤ C.length ∧ C.length ≤ 512)
    (hret : 0 ≤ (cb.on_read w.sink client (st.read_buffer ++ C)
                  (st.read_buffer.length + C.length)).ret
      ∧ (cb.on_read w.sink client (st.read_buffer ++ C)
            (st.read_buffer.length + C.length)).ret
          ≤ ((st.read_buffer.length + C.length : Nat) : Int))
    (hquiet : api_call.disconnect_client ∉
      (cb.on_read w.sink client (st.read_buffer ++ C)
        (st.read_buffer.length + C.length)).calls)
    (hstop : stop.count = -1) :
    ∃ w' st' new,
      handle_read w client (read_result.chunk C :: stop :: rest) = .ok (w', rest)
      ∧ w'.trace = w.trace ++ new
      ∧ on_reads new =
          [event.on_read client (st.read_buffer ++ C) (st.read_buffer.length + C.length)
            (cb.on_read w.sink client (st.read_buffer ++ C)
              (st.read_buffer.length + C.length)).ret]
      ∧ w'.heap client = some st'
      ∧ st'.read_buffer = (st.read_buffer ++ C).drop
          (cb.on_read w.sink client (st.read_buffer ++ C)
            (st.read_buffer.length + C.length)).ret.toNat
      ∧ ((cb.on_read w.sink client (st.read_buffer ++ C)
            (st.read_buffer.length + C.length)).ret = 0 →
          st'.read_buffer = st.read_buffer ++ C)
      ∧ ((cb.on_read w.sink client (st.read_buffer ++ C)
            (st.read_buffer.length + C.length)).ret
            = ((st.read_buffer.length + C.length : Nat) : Int) →
          st'.read_buffer = []) := by
  have hlen : (st.read_buffer ++ (read_result.chunk C).data.take
      (read_result.chunk C).count.toNat) = st.read_buffer ++ C := by
    simp [read_result.chunk]
  have hpos : 0 < (read_result.chunk C).count := by
    have : 0 < C.length := hC.1
    simp only [read_result.chunk]
    exact_mod_cast this
  have hne1 : (read_result.chunk C).count ≠ -1 := by omega
  have hne0 : (read_result.chunk C).count ≠ 0 := by omega
  have hsz : (st.read_buffer ++ C).length = st.read_buffer.length + C.length :=
    List.length_append _ _
  obtain ⟨w1, st1, hd, hl1, hb1, -, -, -, ht1, -, -, -⟩ :=
    deliver_positive w cb client st (read_result.chunk C) hcb hpos
      (by rw [hlen, hsz]; exact hret) (by rw [hlen, hsz]; exact hquiet)
  rw [hlen, hsz] at hb1 ht1
  generalize cb.on_read w.sink client (st.read_buffer ++ C)
    (st.read_buffer.length + C.length) = reply at hret hquiet hb1 ht1 ⊢
  have hrun : handle_read w client (read_result.chunk C :: stop :: rest)
      = handle_read w1 client (stop :: rest) := by
    simp only [handle_read, hlive, hne1, hne0, if_false, hd]
  rw [hrun, handle_read_stop w1 client st1 stop rest hl1 hstop]
  refine ⟨if stop.errno ≠ EAGAIN then w1.log [event.perror perror_site.read] else w1, st1,
    (event.on_read client (st.read_buffer ++ C) (st.read_buffer.length + C.length) reply.ret
        :: sends_of st.fd reply.calls)
      ++ (if stop.errno ≠ EAGAIN then [event.perror perror_site.read] else []),
    rfl, ?_, ?_, ?_, hb1, ?_, ?_⟩
  · by_cases he : stop.errno = EAGAIN <;> simp [he, world.log, ht1]
  · by_cases he : stop.errno = EAGAIN <;>
      simp [he, on_reads, on_reads_append, on_reads_sends]
  · by_cases he : stop.errno = EAGAIN <;> simp [he, world.log, hl1]
  · intro h0
    rw [hb1, h0]
    simp
  · intro hfull
    rw [hb1, hfull, Int.toNat_ofNat, ← hsz]
    exact List.drop_length _

theorem handle_read_one_delivery_witness :
    (∃ w' st' new,
      handle_read (two_record_world (some scripted_sink) [4]) 2
        [read_result.chunk ping, read_result.would_block] = .ok (w', [])
      ∧ w'.trace = [] ++ new
      ∧ on_reads new = [event.on_read 2 ping 4 4]
      ∧ w'.heap 2 = some st'
      ∧ st'.read_buffer = []
      ∧ ((4 : Int) = 0 → st'.read_buffer = ping)
      ∧ ((4 : Int) = 4 → st'.read_buffer = []))
    ∧ (∃ w1 w2 st2,
      handle_read (two_record_world (some scripted_sink) [0, 4]) 2
        [read_result.chunk [112], read_result.would_block] = .ok (w1, [])
      ∧ w1.trace = [event.on_read 2 [112] 1 0]
      ∧ handle_read w1 2 [read_result.chunk [105, 110, 103], read_result.would_block]
          = .ok (w2, [])
      ∧ w2.trace = [event.on_read 2 [112] 1 0, event.on_read 2 ping 4 4]
      ∧ w2.heap 2 = some st2
      ∧ st2.read_buffer = []) :=
  ⟨handle_read_one_delivery (two_record_world (some scripted_sink) [4]) scripted_sink 2
      { blank with fd := 5 } ping read_result.would_block [] rfl rfl (by decide) (by decide)
      (by decide) rfl,
   _, _, _, rfl, rfl, rfl, rfl, rfl, rfl⟩

/-- C3. A Sink that consumes nothing: on a device whose Sink always returns 0 from
`on_read` (and does not disconnect), for a connection whose `read_buffer` is empty
and a run of reads that deliver the `k` non-empty chunks `chunks` and then fail, the
handler returns; it made exactly `k` calls of `on_read`, the `j`-th with the
concatenation of the first `j` chunks; the sizes it passed, starting from the empty
buffer, strictly increase from each call to the next; and the record retains the
concatenation of all the chunks. -/
theorem handle_read_holding {σ : Type} (w : world σ) (cb : device_callbacks σ)
    (client : ptr) (st : client_state) (chunks : List (List byte)) (stop : read_result)
    (rest : List read_result)
    (hcb : w.dev.callbacks = some cb) (hzero : consumes_nothing cb)
    (hlive : w.heap client = some st) (hempty : st.read_buffer = [])
    (hchunks : ∀ c ∈ chunks, c ≠ [])
    (hstop : stop.count = -1) :
    ∃ w' st' new,
      handle_read w client (chunks.map read_result.chunk ++ stop :: rest) = .ok (w', rest)
      ∧ w'.trace = w.trace ++ new
      ∧ on_reads new = (List.range chunks.length).map (fun j =>
          event.on_read client (chunks.take (j + 1)).flatten
            (chunks.take (j + 1)).flatten.length 0)
      ∧ List.Pairwise (· < ·) (0 :: read_sizes new)
      ∧ w'.heap client = some st'
      ∧ st'.read_buffer = chunks.flatten := by
  have hwb' : ∀ cb', w.dev.callbacks = some cb' → well_behaved cb' := by
    intro cb' h
    rw [hcb] at h
    cases h
    exact well_behaved_of_consumes_nothing cb hzero
  obtain ⟨mid, st', htail, hl, hb, -, -, -, ht, -, -, -⟩ :=
    handle_read_positive client (chunks.map read_result.chunk) w st hlive hwb'
      (chunk_count_pos chunks hchunks)
  rw [hcb, hempty] at hb ht
  obtain ⟨hdb, hdo, hdc⟩ := drain_holding cb client st.fd hzero chunks w.sink [] hchunks
  simp only [List.nil_append, List.length_nil] at hdb hdo hdc
  rw [htail, handle_read_stop mid client st' stop rest hl hstop]
  refine ⟨if stop.errno ≠ EAGAIN then mid.log [event.perror perror_site.read] else mid, st',
    (drain (some cb) client st.fd w.sink [] (chunks.map read_result.chunk)).1
      ++ (if stop.errno ≠ EAGAIN then [event.perror perror_site.read] else []),
    rfl, ?_, ?_, ?_, ?_, hb.trans hdb⟩
  · by_cases he : stop.errno = EAGAIN <;> simp [he, world.log, ht]
  · rw [on_reads_append, hdo]
    by_cases he : stop.errno = EAGAIN <;> simp [he, on_reads]
  · have hsz : read_sizes ((drain (some cb) client st.fd w.sink []
        (chunks.map read_result.chunk)).1
          ++ (if stop.errno ≠ EAGAIN then [event.perror perror_site.read] else []))
        = read_sizes (drain (some cb) client st.fd w.sink []
            (chunks.map read_result.chunk)).1 := by
      rw [read_sizes_append]
      by_cases he : stop.errno = EAGAIN <;> simp [he, read_sizes]
    rw [hsz]
    exact List.chain_iff_pairwise.mp hdc
  · by_cases he : stop.errno = EAGAIN <;> simp [he, world.log, hl]

theorem handle_read_holding_witness :
    consumes_nothing hold_sink
    ∧ ∃ w' st' new,
      handle_read (two_record_world (some hold_sink) ()) 2
        ([[112], [105, 110, 103]].map read_result.chunk ++ read_result.failed 104 :: [])
        = .ok (w', [])
      ∧ w'.trace = (two_record_world (some hold_sink) ()).trace ++ new
      ∧ on_reads new = (List.range 2).map (fun j =>
          event.on_read 2 (([[112], [105, 110, 103]] : List (List byte)).take (j + 1)).flatten
            (([[112], [105, 110, 103]] : List (List byte)).take (j + 1)).flatten.length 0)
      ∧ List.Pairwise (· < ·) (0 :: read_sizes new)
      ∧ w'.heap 2 = some st'
      ∧ st'.read_buffer = [112, 105, 110, 103] :=
  have hz : consumes_nothing hold_sink := by
    intro s c buf
    simp [hold_sink]
  ⟨hz, handle_read_holding (two_record_world (some hold_sink) ()) hold_sink 2
    { blank with fd := 5 } [[112], [105, 110, 103]] (read_result.failed 104) [] rfl hz
    rfl rfl (by decide) rfl⟩

/-- C4, as stated, fails where the 64-bit counter wraps: the record at address 2 has
`bytes_written = 2 ^ 64 - 1`, `send` transfers 1 octet, `write_buffer` returns 1,
and `bytes_written` is 0 afterwards, not the old value plus 1. -/
theorem write_buffer_counter_wraps :
    ∃ w' st st', full_counter_world.heap 2 = some st
      ∧ write_buffer full_counter_world 2 [33] 1 1 = .ok (w', 1)
      ∧ w'.heap 2 = some st'
      ∧ st'.bytes_written = 0
      ∧ st'.bytes_written ≠ st.bytes_written + 1 :=
  ⟨_, _, _, rfl, rfl, rfl, by decide, by decide⟩

/-- C4, amended. `write_buffer` on a live record makes exactly one `send`, on the
record's socket with the given buffer and size, and returns the result of that
`send` unchanged.  Afterwards `bytes_written` is the old value plus the returned
count modulo `2 ^ 64` if the count is positive, and the old value if the result is
zero or negative; no other member of the record changes, and neither does any other
record, the interest list, the Sink or the device. -/
theorem write_buffer_effect {σ : Type} (w : world σ) (client : ptr) (st : client_state)
    (buffer : List byte) (size : Nat) (send_result : Int)
    (hlive : w.heap client = some st) :
    ∃ w', write_buffer w client buffer size send_result = .ok (w', send_result)
      ∧ w'.trace = w.trace ++ [event.send st.fd buffer size]
      ∧ w'.heap client = some
          { st with bytes_written :=
              if send_result > 0 then (st.bytes_written + send_result.toNat) % 2 ^ 64
              else st.bytes_written }
      ∧ (∀ q, q ≠ client → w'.heap q = w.heap q)
      ∧ w'.interest = w.interest ∧ w'.sink = w.sink ∧ w'.dev = w.dev := by
  by_cases h : send_result > 0
  · simp only [write_buffer, hlive, h, if_true, world.log, world.store, UINT64_MOD]
    refine ⟨_, rfl, rfl, ?_, ?_, rfl, rfl, rfl⟩
    · simp
    · intro q hq
      simp [Function.update, hq]
  · simp only [write_buffer, hlive, h, if_false, world.log, world.store]
    exact ⟨_, rfl, rfl, hlive, fun _ _ => rfl, rfl, rfl, rfl⟩

theorem write_buffer_effect_witness :
    (two_record_world (some hold_sink) ()).heap 2 = some { blank with fd := 5 }
    ∧ ∃ w', write_buffer (two_record_world (some hold_sink) ()) 2 ping 4 3 = .ok (w', 3)
      ∧ w'.trace = (two_record_world (some hold_sink) ()).trace ++ [event.send 5 ping 4]
      ∧ w'.heap 2 = some
          { ({ blank with fd := 5 } : client_state) with bytes_written :=
              if (3 : Int) > 0 then
                (({ blank with fd := 5 } : client_state).bytes_written + (3 : Int).toNat) % 2 ^ 64
              else ({ blank with fd := 5 } : client_state).bytes_written }
      ∧ (∀ q, q ≠ 2 → w'.heap q = (two_record_world (some hold_sink) ()).heap q)
      ∧ w'.interest = (two_record_world (some hold_sink) ()).interest
      ∧ w'.sink = (two_record_world (some hold_sink) ()).sink
      ∧ w'.dev = (two_record_world (some hold_sink) ()).dev :=
  ⟨rfl, write_buffer_effect (two_record_world (some hold_sink) ()) 2 { blank with fd := 5 }
    ping 4 3 rfl⟩

/-- C5. `disconnect_client` on a live, non-null record of a device that has a Sink
returns, and does exactly this, in this order: one `on_disconnect` callback with the
record, which the Sink still sees whole; `epoll_ctl(EPOLL_CTL_DEL)`, `shutdown` and
`close` on the record's socket; `delete` of the record.  Afterwards the record is
gone, every other record is as before and the socket is off the interest list.  On
`nullptr` it returns at once and the world is unchanged. -/
theorem disconnect_client_sequence {σ : Type} (w : world σ) (cb : device_callbacks σ)
    (client : ptr) (st : client_state)
    (hcb : w.dev.callbacks = some cb) (hnn : client ≠ nullptr)
    (hlive : w.heap client = some st) :
    (∃ w', disconnect_client w client = .ok w'
      ∧ w'.trace = w.trace ++
          [event.on_disconnect client (some st), event.epoll_ctl_del st.fd,
           event.shutdown st.fd, event.close st.fd, event.delete_client client]
      ∧ w'.heap client = none
      ∧ (∀ q, q ≠ client → w'.heap q = w.heap q)
      ∧ w'.interest = w.interest.filter (fun r => r.1 ≠ st.fd)
      ∧ w'.sink = (cb.on_disconnect w.sink client).2
      ∧ w'.dev = w.dev)
    ∧ disconnect_client w nullptr = .ok w := by
  constructor
  · obtain ⟨w', hr, ht, hh, ho, hi, hs, hd⟩ := disconnect_client_live w client st hnn hlive
    rw [hcb] at ht hs
    exact ⟨w', hr, ht, hh, ho, hi, hs, hd⟩
  · simp [disconnect_client]

theorem disconnect_client_sequence_witness :
    (∃ w', disconnect_client (two_record_world (some hold_sink) ()) 2 = .ok w'
      ∧ w'.trace = (two_record_world (some hold_sink) ()).trace ++
          [event.on_disconnect 2 (some { blank with fd := 5 }), event.epoll_ctl_del 5,
           event.shutdown 5, event.close 5, event.delete_client 2]
      ∧ w'.heap 2 = none
      ∧ (∀ q, q ≠ 2 → w'.heap q = (two_record_world (some hold_sink) ()).heap q)
      ∧ w'.interest = (two_record_world (some hold_sink) ()).interest.filter (fun r => r.1 ≠ 5)
      ∧ w'.sink = (hold_sink.on_disconnect (two_record_world (some hold_sink) ()).sink 2).2
      ∧ w'.dev = (two_record_world (some hold_sink) ()).dev)
    ∧ disconnect_client (two_record_world (some hold_sink) ()) nullptr
        = .ok (two_record_world (some hold_sink) ()) :=
  disconnect_client_sequence (two_record_world (some hold_sink) ()) hold_sink 2
    { blank with fd := 5 } rfl (by decide) rfl

/-- C6 fails on the code. The connection at address 2 receives "ping"; the Sink's
`on_read` calls `disconnect_client` on it and returns 0.  The record is deleted
inside the callback, and the next step of `handle_read`, the assignment to
`client->read_buffer`, uses the deleted record: the run ends in undefined
behaviour.  A read of zero octets, in contrast, destroys the record and the handler
returns without touching it again. -/
theorem handle_read_uses_destroyed_record :
    (∃ w', handle_read (two_record_world (some hangup_sink) ()) 2
        [read_result.chunk ping, read_result.would_block] = .error (halt.dangling 2, w')
      ∧ w'.trace =
          [event.on_read 2 ping 4 0,
           event.on_disconnect 2
             (some { blank with fd := 5, read_buffer := ping, bytes_read := 4 }),
           event.epoll_ctl_del 5, event.shutdown 5, event.close 5, event.delete_client 2]
      ∧ w'.heap 2 = none)
    ∧ (∃ w', handle_read (two_record_world (some hangup_sink) ()) 2
        [read_result.eof, read_result.would_block] = .ok (w', [read_result.would_block])
      ∧ w'.trace =
          [event.on_disconnect 2 (some { blank with fd := 5 }),
           event.epoll_ctl_del 5, event.shutdown 5, event.close 5, event.delete_client 2]
      ∧ w'.heap 2 = none) :=
  ⟨⟨_, rfl, by decide, rfl⟩, ⟨_, rfl, rfl, rfl⟩⟩

/-- C7 fails on the code. For every Sink, in any state, and any number of worker
threads: a device is constructed (the listener record is allocated at address 1 on
socket 4) and then destroyed, with no readiness event in between.  The destructor
passes the listener record, whose `userdata` was never set, to the Sink's
`on_disconnect`, once; it then returns if there is no worker thread and blocks in
`join` otherwise. -/
theorem dtor_hands_listener_to_sink {σ : Type} (cb : device_callbacks σ) (s : σ) (n : Nat) :
    ∃ w w', device_ctor (some cb) s n good_ctor = .ok w
      ∧ w.dev.listener = 1
      ∧ (device_dtor w = .ok w' ∨ device_dtor w = .error (halt.join_blocks, w'))
      ∧ event.on_disconnect 1 (some { junk with fd := 4 }) ∈ w'.trace
      ∧ disconnects w.dev.listener w'.trace = 1 := by
  have hctor : ∃ w, device_ctor (some cb) s n good_ctor = .ok w
      ∧ w.dev.listener = 1 ∧ w.dev.callbacks = some cb ∧ w.dev.threads = n
      ∧ w.heap 1 = some { junk with fd := 4 }
      ∧ w.trace = [event.new_client 1, event.set_fd_blocking 4 false]
          ++ (List.range n).map event.spawn_thread
          ++ [event.epoll_ctl_add 4 1, event.on_startup] :=
    ⟨_, rfl, rfl, rfl, rfl,
      by simp [world.log, good_ctor, allocate_client, set_fd_blocking, create_socket,
        world.store, junk, address.zero],
      by simp [world.log, good_ctor, allocate_client, set_fd_blocking, create_socket,
        world.store]⟩
  obtain ⟨w, hw, hl, hcb, hth, hh, ht⟩ := hctor
  have h1 : ({ (w.log [event.on_shutdown]) with sink := cb.on_shutdown w.sink } : world σ).heap 1
      = some { junk with fd := 4 } := hh
  obtain ⟨w2, hr, ht2, -, -, -, -, hd2⟩ := disconnect_client_live
    ({ (w.log [event.on_shutdown]) with sink := cb.on_shutdown w.sink } : world σ) 1
    { junk with fd := 4 } (by decide) h1
  have hcb2 :
      ({ (w.log [event.on_shutdown]) with sink := cb.on_shutdown w.sink } : world σ).dev.callbacks
        = some cb := hcb
  rw [hcb2] at ht2
  simp only [world.log, ht] at ht2
  simp only [world.log] at hr hd2
  have hdt : device_dtor w = (if n = 0 then .ok (w2.log [event.close w2.dev.epoll_fd])
      else .error (halt.join_blocks, w2)) := by
    simp only [device_dtor, hcb, hl, world.log, hr, hd2, hth]
  by_cases hn : n = 0
  · refine ⟨w, w2.log [event.close w2.dev.epoll_fd], hw, hl, Or.inl (by rw [hdt, if_pos hn]),
      ?_, ?_⟩
    · simp [world.log, ht2]
    · rw [hl]
      simp [world.log, ht2, disconnects_append, disconnects_spawn, disconnects]
  · refine ⟨w, w2, hw, hl, Or.inr (by rw [hdt, if_neg hn]), ?_, ?_⟩
    · simp [ht2]
    · rw [hl]
      simp [ht2, disconnects_append, disconnects_spawn, disconnects]

/-- C8. How `handle_read` ends.  On a live connection, with a Sink (if the device has
one) that keeps its counts in range and does not disconnect, for a script made of
reads with positive counts `pos`, then a read `stop` that returns `-1` or `0`, then
anything: the handler returns having read exactly up to `stop`; the events it added
are those of delivering `pos` in order (one `on_read` per read when there is a
Sink), followed by the ending for `stop`; the record was destroyed once if `stop`
read zero octets and not at all otherwise.  After a `-1` (would-block or error) the
record is still live with the `read_buffer` that the last delivery retained, the
interest list is unchanged and no socket was deregistered, shut down or closed.
After a `0` the record is gone and its socket is off the interest list. -/
theorem handle_read_ending {σ : Type} (w : world σ) (client : ptr) (st : client_state)
    (pos : List read_result) (stop : read_result) (rest : List read_result)
    (hnn : client ≠ nullptr) (hlive : w.heap client = some st)
    (hwb : ∀ cb, w.dev.callbacks = some cb → well_behaved cb)
    (hpos : ∀ r ∈ pos, 0 < r.count)
    (hstop : stop.count = -1 ∨ stop.count = 0) :
    ∃ w' new last,
      handle_read w client (pos ++ stop :: rest) = .ok (w', rest)
      ∧ w'.trace = w.trace ++ new
      ∧ new = (drain w.dev.callbacks client st.fd w.sink st.read_buffer pos).1
                ++ ending w.dev.callbacks.isSome client last stop
      ∧ (on_reads new).length = (if w.dev.callbacks.isSome then pos.length else 0)
      ∧ last.read_buffer = retained client st.read_buffer new
      ∧ last.fd = st.fd
      ∧ destroyed client new = (if stop.count = 0 then 1 else 0)
      ∧ (stop.count = -1 →
          w'.heap client = some last ∧ w'.interest = w.interest
            ∧ ∀ e ∈ new, is_teardown e = false)
      ∧ (stop.count = 0 →
          w'.heap client = none
            ∧ w'.interest = w.interest.filter (fun r => r.1 ≠ st.fd)) := by
  obtain ⟨mid, last, htail, hl, hb, hf, -, -, ht, hi, -, hdv⟩ :=
    handle_read_positive client pos w st hlive hwb hpos
  have hnt := drain_no_teardown w.dev.callbacks client st.fd pos w.sink st.read_buffer
  have hret := retained_drain w.dev.callbacks client st.fd pos w.sink st.read_buffer
  have hlen : (on_reads (drain w.dev.callbacks client st.fd w.sink st.read_buffer pos).1).length
      = (if w.dev.callbacks.isSome then pos.length else 0) := by
    cases hcb : w.dev.callbacks with
    | none => simp [drain_no_sink, on_reads]
    | some cb => simp [on_reads_drain_length]
  rcases hstop with hstop | hstop
  · have hne0 : stop.count ≠ 0 := by omega
    refine ⟨if stop.errno ≠ EAGAIN then mid.log [event.perror perror_site.read] else mid,
      _, last, ?_, ?_, rfl, ?_, ?_, hf, ?_, ?_, ?_⟩
    · rw [htail, handle_read_stop mid client last stop rest hl hstop]
    · by_cases he : stop.errno = EAGAIN <;> simp [he, world.log, ht, ending, hne0]
    · rw [on_reads_append, List.length_append, hlen]
      by_cases he : stop.errno = EAGAIN <;> simp [he, ending, hne0, on_reads]
    · rw [retained_append, hret, hb]
      by_cases he : stop.errno = EAGAIN <;> simp [he, ending, hne0, retained]
    · rw [destroyed_append, destroyed_of_no_teardown client _ hnt]
      by_cases he : stop.errno = EAGAIN <;> simp [he, ending, hne0, destroyed]
    · intro _
      refine ⟨?_, ?_, ?_⟩
      · by_cases he : stop.errno = EAGAIN <;> simp [he, world.log, hl]
      · by_cases he : stop.errno = EAGAIN <;> simp [he, world.log, hi]
      · intro e he
        rcases List.mem_append.mp he with h | h
        · exact hnt e h
        · by_cases hee : stop.errno = EAGAIN
          · simp [ending, hne0, hee] at h
          · simp only [ending, hne0, if_false, ne_eq, hee, not_false_eq_true, if_true,
              List.mem_singleton] at h
            rw [h]; rfl
    · intro h0; omega
  · obtain ⟨w', hr, ht', hh', -, hi', -, -⟩ := disconnect_client_live mid client last hnn hl
    have hend : (match mid.dev.callbacks with
          | some _ => [event.on_disconnect client (some last)]
          | none => []) ++
        [event.epoll_ctl_del last.fd, event.shutdown last.fd, event.close last.fd,
          event.delete_client client]
        = ending w.dev.callbacks.isSome client last stop := by
      rw [hdv]
      cases w.dev.callbacks <;> simp [ending, hstop]
    rw [hend] at ht'
    refine ⟨w', _, last, ?_, ?_, rfl, ?_, ?_, hf, ?_, ?_, ?_⟩
    · rw [htail]
      simp only [handle_read, hl, hstop, hr]
      rfl
    · rw [ht', ht, List.append_assoc]
    · rw [on_reads_append, List.length_append, hlen]
      cases w.dev.callbacks <;> simp [ending, hstop, on_reads]
    · rw [retained_append, hret, hb]
      cases w.dev.callbacks <;> simp [ending, hstop, retained]
    · rw [destroyed_append, destroyed_of_no_teardown client _ hnt]
      cases w.dev.callbacks <;> simp [ending, hstop, destroyed]
    · intro h1; omega
    · intro _
      exact ⟨hh', by rw [hi', hi, hf]⟩

theorem handle_read_ending_witness :
    (2 : ptr) ≠ nullptr
    ∧ (∀ r ∈ [read_result.chunk [112], read_result.chunk [105, 110, 103]], 0 < r.count)
    ∧ ∃ w' new last,
      handle_read (two_record_world (some (frame_sink 4)) ()) 2
        ([read_result.chunk [112], read_result.chunk [105, 110, 103]]
          ++ read_result.eof :: [read_result.chunk ping]) = .ok (w', [read_result.chunk ping])
      ∧ w'.trace = (two_record_world (some (frame_sink 4)) ()).trace ++ new
      ∧ new = (drain (two_record_world (some (frame_sink 4)) ()).dev.callbacks 2 5 () []
                [read_result.chunk [112], read_result.chunk [105, 110, 103]]).1
                ++ ending (two_record_world (some (frame_sink 4)) ()).dev.callbacks.isSome 2 last
                    read_result.eof
      ∧ (on_reads new).length = 2
      ∧ last.read_buffer = retained 2 [] new
      ∧ last.fd = 5
      ∧ destroyed 2 new = 1
      ∧ (read_result.eof.count = -1 →
          w'.heap 2 = some last
            ∧ w'.interest = (two_record_world (some (frame_sink 4)) ()).interest
            ∧ ∀ e ∈ new, is_teardown e = false)
      ∧ (read_result.eof.count = 0 →
          w'.heap 2 = none
            ∧ w'.interest = (two_record_world (some (frame_sink 4)) ()).interest.filter
                (fun r => r.1 ≠ 5)) :=
  ⟨by decide, by decide,
   handle_read_ending (two_record_world (some (frame_sink 4)) ()) 2 { blank with fd := 5 }
    [read_result.chunk [112], read_result.chunk [105, 110, 103]] read_result.eof
    [read_result.chunk ping] (by decide) rfl
    (by
      intro cb h
      cases h
      intro s c buf
      simp only [frame_sink, List.not_mem_nil, not_false_eq_true, and_true]
      omega)
    (by decide) (Or.inr rfl)⟩

/-- C9. Draining the listener.  With the listener record live, for a script in which
`accept` succeeds for each of `accepts` (the socket registers, and `new` returns
addresses that are not null, not live and all different) and then returns `-1`:
`handle_accept` returns having used the script exactly up to that `-1`; for each
accepted connection, in accept order, it made the socket non-blocking, allocated a
record, called `on_accept` once (if there is a Sink) with the finished record, and
only then registered the socket, whatever `on_accept` returned; each record holds
the accepted socket and the peer address (port from network byte order, the four
IPv4 octets in `ip[0..3]`, `ip[4..15]` zero); every other record is untouched; the
interest list has grown by the accepted sockets in order; and nothing was
disconnected. -/
theorem handle_accept_drains {σ : Type} (w : world σ) (l : client_state)
    (accepts : List accept_result) (stop : accept_result) (rest : List accept_result)
    (hl : w.heap w.dev.listener = some l)
    (hok : ∀ a ∈ accepts, 0 ≤ a.in_fd ∧ a.epoll_ctl ≠ -1)
    (hfresh : ∀ a ∈ accepts, a.new_client ≠ nullptr ∧ w.heap a.new_client = none)
    (hnodup : (accepts.map accept_result.new_client).Nodup)
    (hstop : stop.in_fd = -1) :
    ∃ w' new,
      handle_accept w (accepts ++ stop :: rest) = .ok (w', rest)
      ∧ w'.trace = w.trace ++ new
      ∧ new = (accepts.map (accept_events w.dev.callbacks.isSome)).flatten
          ++ (if stop.errno = EAGAIN ∨ stop.errno = EWOULDBLOCK then []
              else [event.perror perror_site.accept])
      ∧ (∀ a ∈ accepts, w'.heap a.new_client = some (accepted_record a))
      ∧ (∀ q, (∀ a ∈ accepts, a.new_client ≠ q) → w'.heap q = w.heap q)
      ∧ w'.interest = w.interest ++ accepts.map (fun a => (a.in_fd, a.new_client))
      ∧ (∀ e ∈ new, is_teardown e = false) := by
  obtain ⟨hd, ht, hi, ho, hn⟩ := accepted_fold_facts accepts w
  have hrun := handle_accept_run l (stop :: rest) accepts w hl hok
    (fun a ha => (hfresh a ha).2) hnodup
  have hl' : (accepts.foldl accepted_world w).heap (accepts.foldl accepted_world w).dev.listener
      = some l := by
    rw [hd, ho _ ?_, hl]
    intro a ha heq
    rw [← heq, (hfresh a ha).2] at hl
    cases hl
  have hnt : ∀ e ∈ (accepts.map (accept_events w.dev.callbacks.isSome)).flatten,
      is_teardown e = false := by
    intro e he
    simp only [List.mem_flatten, List.mem_map] at he
    obtain ⟨es, ⟨a, -, rfl⟩, hmem⟩ := he
    exact accept_events_no_teardown _ a e hmem
  by_cases he : stop.errno = EAGAIN ∨ stop.errno = EWOULDBLOCK
  · refine ⟨accepts.foldl accepted_world w, _, ?_, ?_, rfl, hn hnodup, ho, hi, ?_⟩
    · rw [hrun]
      simp only [handle_accept, hl', hstop, if_true, he]
    · rw [ht]; simp [he]
    · intro e hmem
      simp only [he, if_true, List.append_nil] at hmem
      exact hnt e hmem
  · refine ⟨(accepts.foldl accepted_world w).log [event.perror perror_site.accept], _, ?_, ?_,
      rfl, ?_, ?_, ?_, ?_⟩
    · rw [hrun]
      simp only [handle_accept, hl', hstop, if_true, he, if_false]
    · simp only [world.log, ht, he, if_false, List.append_assoc]
    · exact hn hnodup
    · exact ho
    · exact hi
    · intro e hmem
      simp only [he, if_false, List.mem_append, List.mem_singleton] at hmem
      rcases hmem with h | rfl
      · exact hnt e h
      · rfl

theorem handle_accept_drains_witness :
    (∀ a ∈ two_accepts, 0 ≤ a.in_fd ∧ a.epoll_ctl ≠ -1)
    ∧ (∀ a ∈ two_accepts,
        a.new_client ≠ nullptr
          ∧ (two_record_world (some refusing_sink) ()).heap a.new_client = none)
    ∧ (two_accepts.map accept_result.new_client).Nodup
    ∧ (two_accepts.map (fun a => (accepted_record a).address))
        = [{ ip := [127, 0, 0, 1, 0, 0, 0, 0, 0, 0, 0, 0, 0, 0, 0, 0], port := 8080 },
           { ip := [10, 0, 0, 7, 0, 0, 0, 0, 0, 0, 0, 0, 0, 0, 0, 0], port := 443 }]
    ∧ ∃ w' new,
      handle_accept (two_record_world (some refusing_sink) ())
        (two_accepts ++ accept_would_block :: []) = .ok (w', [])
      ∧ w'.trace = (two_record_world (some refusing_sink) ()).trace ++ new
      ∧ new = (two_accepts.map (accept_events
                (two_record_world (some refusing_sink) ()).dev.callbacks.isSome)).flatten
          ++ (if accept_would_block.errno = EAGAIN ∨ accept_would_block.errno = EWOULDBLOCK
              then [] else [event.perror perror_site.accept])
      ∧ (∀ a ∈ two_accepts, w'.heap a.new_client = some (accepted_record a))
      ∧ (∀ q, (∀ a ∈ two_accepts, a.new_client ≠ q) →
          w'.heap q = (two_record_world (some refusing_sink) ()).heap q)
      ∧ w'.interest = (two_record_world (some refusing_sink) ()).interest
          ++ two_accepts.map (fun a => (a.in_fd, a.new_client))
      ∧ (∀ e ∈ new, is_teardown e = false) :=
  ⟨by decide, by decide, by decide, by decide,
   handle_accept_drains (two_record_world (some refusing_sink) ()) { blank with fd := 4 }
    two_accepts accept_would_block [] rfl (by decide) (by decide) (by decide) rfl⟩

/-- C10. Routing of a readiness event.  In every state a device can reach between
its construction and its destruction, for every ready event whose tag is a non-null
pointer to a live record `r`: if `r` is the listener record (the tag is the
listener pointer) the worker runs the accept handler, and if it is not, the worker
runs the read handler on `r`; in both cases it then goes on with the rest of the
batch.  The test the code makes, equality of the socket handles of `r` and of the
listener record, holds exactly when `r` is the listener record. -/
theorem worker_routes_by_identity {σ : Type} (w : world σ) (ev : ready_event)
    (evs : List ready_event) (r : client_state)
    (hreach : reachable w) (hnn : ev.data_ptr ≠ nullptr)
    (hr : w.heap ev.data_ptr = some r) :
    (ev.data_ptr = w.dev.listener →
      worker_events w (ev :: evs) =
        match handle_accept w ev.accepts with
        | .ok (w', _) => worker_events w' evs
        | .error e => .error e)
    ∧ (ev.data_ptr ≠ w.dev.listener →
      worker_events w (ev :: evs) =
        match handle_read w ev.data_ptr ev.reads with
        | .ok (w', _) => worker_events w' evs
        | .error e => .error e)
    ∧ (∃ l, w.heap w.dev.listener = some l
        ∧ (r.fd = l.fd ↔ ev.data_ptr = w.dev.listener)) := by
  obtain ⟨-, ⟨l, hl⟩, hone⟩ := reachable_in_service w hreach
  obtain ⟨hacc, hread⟩ := worker_events_route w ev evs r l hnn hr hl
  have hiff : r.fd = l.fd ↔ ev.data_ptr = w.dev.listener := by
    constructor
    · intro h
      exact hone ev.data_ptr w.dev.listener r l hr hl h
    · intro h
      rw [h, hl] at hr
      cases hr
      rfl
  exact ⟨fun h => hacc (hiff.mpr h), fun h => hread (fun hf => h (hiff.mp hf)), l, hl, hiff⟩

theorem worker_routes_by_identity_witness :
    (reachable built_world ∧ reachable served_world)
    ∧ ((probe_event 1).data_ptr ≠ nullptr ∧ (probe_event 3).data_ptr ≠ nullptr)
    ∧ (built_world.dev.listener = 1 ∧ served_world.dev.listener = 1)
    ∧ (((probe_event 1).data_ptr = built_world.dev.listener →
          worker_events built_world (probe_event 1 :: []) =
            match handle_accept built_world (probe_event 1).accepts with
            | .ok (w', _) => worker_events w' []
            | .error e => .error e)
        ∧ ((probe_event 1).data_ptr ≠ built_world.dev.listener →
          worker_events built_world (probe_event 1 :: []) =
            match handle_read built_world (probe_event 1).data_ptr (probe_event 1).reads with
            | .ok (w', _) => worker_events w' []
            | .error e => .error e)
        ∧ (∃ l, built_world.heap built_world.dev.listener = some l
            ∧ ((4 : Int) = l.fd ↔ (probe_event 1).data_ptr = built_world.dev.listener)))
    ∧ (((probe_event 3).data_ptr = served_world.dev.listener →
          worker_events served_world (probe_event 3 :: []) =
            match handle_accept served_world (probe_event 3).accepts with
            | .ok (w', _) => worker_events w' []
            | .error e => .error e)
        ∧ ((probe_event 3).data_ptr ≠ served_world.dev.listener →
          worker_events served_world (probe_event 3 :: []) =
            match handle_read served_world (probe_event 3).data_ptr (probe_event 3).reads with
            | .ok (w', _) => worker_events w' []
            | .error e => .error e)
        ∧ (∃ l, served_world.heap served_world.dev.listener = some l
            ∧ ((6 : Int) = l.fd ↔ (probe_event 3).data_ptr = served_world.dev.listener)))
    ∧ (worker_events built_world [probe_event 1] = .ok served_world
        ∧ served_world.interest = [(4, 1), (6, 3), (7, 4)]
        ∧ served_world.heap 3 = some (accepted_record
            { in_fd := 6, errno := 0,
              input_addr := { sin_port := (31, 144), s_addr := (127, 0, 0, 1) },
              new_client := 3, uninit := junk, epoll_ctl := 0 }))
    ∧ (∃ w', worker_events served_world [probe_event 3] = .ok w'
        ∧ w'.heap 3 = none
        ∧ w'.interest = [(4, 1), (7, 4)]) :=
  ⟨⟨built_world_reachable, served_world_reachable⟩,
   ⟨by decide, by decide⟩,
   ⟨rfl, rfl⟩,
   worker_routes_by_identity built_world (probe_event 1) [] { junk with fd := 4 }
     built_world_reachable (by decide) rfl,
   worker_routes_by_identity served_world (probe_event 3) []
     (accepted_record
       { in_fd := 6, errno := 0,
         input_addr := { sin_port := (31, 144), s_addr := (127, 0, 0, 1) },
         new_client := 3, uninit := junk, epoll_ctl := 0 })
     served_world_reachable (by decide) rfl,
   ⟨rfl, rfl, rfl⟩,
   ⟨_, rfl, rfl, rfl⟩⟩

end scnet
